import Mathlib

/-!
# LinksHouse asset loaders

A shallow embedding of the two file readers of `LinksHouse.cpp`:

* `readPLYFile`  (lines 43-121), the text mesh reader, and
* `loadARGBBMP`  (lines 123-164), the uncompressed bitmap reader,

followed by the properties of them that the specification states.

Conventions of the embedding.

* A `std::string` is a `List Char`; a file opened in text mode is the list of
  its characters, a file opened in binary mode the list of its bytes.
* A C++ exception that nothing catches is the `Except.error` result.
* A variable that the source leaves uninitialised holds `none`
  (an indeterminate value); a value that was written holds `some _`.
* `int` is `Int` with explicit range checks where the library performs them;
  `unsigned int` arithmetic is taken modulo `2 ^ 32`.
* `float` is a type parameter `F` together with the conversion `stof`, so that
  every statement holds for whatever `std::stof` computes.
-/

set_option maxRecDepth 100000

namespace LinksHouse

/-! ## The bitmap reader `loadARGBBMP` -/

/-- One octet of a binary file. -/
abbrev Byte := Fin 256

/-- A `FILE*` opened for reading: the bytes of the file and the read position. -/
structure CFile where
  content : List Byte
  pos : Nat
deriving DecidableEq, Repr

/-- The stream `fopen(path, "rb")` gives for a file holding `bytes`. -/
def fopen (bytes : List Byte) : CFile := ⟨bytes, 0⟩

/-- The call `fread(buf, 1, n, file)`: the bytes stored into `buf` (at most `n`, fewer when
the file ends first) and the stream advanced past them. -/
def fread (n : Nat) (f : CFile) : List Byte × CFile :=
  let got := (f.content.drop f.pos).take n
  (got, { f with pos := f.pos + got.length })

/-- The call `fseek(file, off, SEEK_SET)`. -/
def fseek (off : Nat) (f : CFile) : CFile := { f with pos := off }

/-- The byte `header[i]`. -/
def headerByte (header : List Byte) (i : Nat) : Nat := (header.getD i 0).val

/-- The read `*(int *)&(header[off])` on a little-endian machine, as the value it has once
stored in an `unsigned int`: the four bytes from `off`, least significant first. -/
def readLE32 (header : List Byte) (off : Nat) : Nat :=
  headerByte header off + 256 * headerByte header (off + 1)
    + 65536 * headerByte header (off + 2) + 16777216 * headerByte header (off + 3)

/-- The two-byte little-endian field at `off` (the format's bits-per-pixel field lives at
`0x1C`); the source never reads it. -/
def readLE16 (header : List Byte) (off : Nat) : Nat :=
  headerByte header off + 256 * headerByte header (off + 1)

/-- The lines `loadARGBBMP` prints with `std::printf`. -/
inductive BmpDiagnostic where
  /-- Text `Error: Could not open BMP file: <path>`. -/
  | couldNotOpen
  /-- Text `Error: Not a valid BMP file <path>`. -/
  | notValid
  /-- Text `Error: File is not a BMP file: <path>`. -/
  | notBmp
  /-- Text `Error: BMP file is not 32bpp: <path>`. -/
  | not32bpp
deriving DecidableEq, Repr

/-- The array `new unsigned char[size]` after the final `fread`: `bytes` are the octets the
read stored at its front; the remaining `size - bytes.length` octets are uninitialised. -/
structure PixelBuffer where
  size : Nat
  bytes : List Byte
deriving DecidableEq, Repr

/-- The three output parameters `*data`, `*width`, `*height`; `data = none` is the null
pointer. -/
structure BmpOut where
  data : Option PixelBuffer
  width : Nat
  height : Nat
deriving DecidableEq, Repr

/-- The byte count of line 155-156: the declared one, or `width * height * 4` in
`unsigned int` arithmetic when it is zero. -/
def deriveImageSize (declared width height : Nat) : Nat :=
  if declared = 0 then (width * height * 4) % 2 ^ 32 else declared

/-- The offset of line 157-158. -/
def deriveDataOffset (declared : Nat) : Nat :=
  if declared = 0 then 54 else declared

/-- The function `loadARGBBMP` (lines 123-164). `file` is `none` when `fopen` fails; `out`
holds what the caller stored in the three output parameters before the call. The result is
the output parameters after the call and the diagnostics printed. Allocation is taken to
succeed and `long` to be 64 bits wide, so that `fseek` accepts every `unsigned int`. -/
def loadARGBBMP (file : Option (List Byte)) (out : BmpOut) : BmpOut × List BmpDiagnostic :=
  match file with
  | none => (out, [.couldNotOpen])
  | some bytes =>
    let (header, f) := fread 54 (fopen bytes)
    if header.length ≠ 54 then (out, [.notValid])
    else if headerByte header 0 ≠ 'B'.toNat ∨ headerByte header 1 ≠ 'M'.toNat then
      (out, [.notBmp])
    else
      let dataOffset := readLE32 header 0x0A
      let imageSize := readLE32 header 0x22
      let out := { out with width := readLE32 header 0x12, height := readLE32 header 0x16 }
      if readLE32 header 0x1E ≠ 3 then (out, [.not32bpp])
      else
        let imageSize := deriveImageSize imageSize out.width out.height
        let dataOffset := deriveDataOffset dataOffset
        let f := if dataOffset ≠ 54 then fseek dataOffset f else f
        let (got, _) := fread imageSize f
        ({ out with data := some ⟨imageSize, got⟩ }, [])

/-- What `TexturedMesh::TexturedMesh` stores before the call (lines 176-177). -/
def callerInit : BmpOut := ⟨none, 0, 0⟩

/-- A 54-byte header: magic `BM`, then the given data offset, width, height, bits per pixel,
compression and data size as byte lists at `0x0A`, `0x12`, `0x16`, `0x1C`, `0x1E`, `0x22`;
the plane count at `0x1A` is 1 and every other byte zero. -/
def bmpHeaderBytes (offset width height : List Byte) (bpp : List Byte)
    (compression size : List Byte) : List Byte :=
  [66, 77] ++ List.replicate 8 0 ++ offset ++ List.replicate 4 0 ++ width ++ height
    ++ [1, 0] ++ bpp ++ compression ++ size ++ List.replicate 16 0

/-! ## Strings and the numeric conversions of the standard library -/

/-- A `std::string`. -/
abbrev Str := List Char

/-- The exceptions `std::stoi` and `std::stof` throw. -/
inductive Exn where
  | invalid_argument
  | out_of_range
deriving DecidableEq, Repr

/-- The classification `isspace` of the C locale. -/
def isspace (c : Char) : Bool :=
  c = ' ' || c = '\t' || c = '\n' || c = '\r' || c = Char.ofNat 11 || c = Char.ofNat 12

/-- The classification `isdigit`. -/
def isdigit (c : Char) : Bool := decide ('0'.toNat ≤ c.toNat) && decide (c.toNat ≤ '9'.toNat)

/-- The value of one decimal digit. -/
def digitValue (c : Char) : Nat := c.toNat - '0'.toNat

/-- The number a run of decimal digits denotes. -/
def decimalValue (ds : Str) : Nat := ds.foldl (fun a c => 10 * a + digitValue c) 0

/-- Largest `int`. -/
def INT_MAX : Int := 2147483647

/-- Smallest `int`. -/
def INT_MIN : Int := -2147483648

/-- Largest `unsigned int`. -/
def UINT_MAX : Nat := 4294967295

/-- Whether a numeric field starts with a minus sign. -/
def signNegative (s : Str) : Bool := s.head? = some '-'

/-- A numeric field without its optional sign. -/
def dropSign (s : Str) : Str :=
  if s.head? = some '-' ∨ s.head? = some '+' then s.tail else s

/-- The signed value of a digit run. -/
def signedValue (negative : Bool) (ds : Str) : Int :=
  if negative then -(decimalValue ds : Int) else (decimalValue ds : Int)

/-- The call `std::stoi(s)`: leading white space is skipped, an optional sign and then the
longest run of decimal digits is converted; without a digit `invalid_argument` is thrown,
with a value outside `int`, `out_of_range`. -/
def stoi (s : Str) : Except Exn Int :=
  let t := s.dropWhile isspace
  let ds := (dropSign t).takeWhile isdigit
  if ds = [] then .error .invalid_argument
  else
    let n := signedValue (signNegative t) ds
    if n < INT_MIN ∨ INT_MAX < n then .error .out_of_range else .ok n

/-- Whether `p` occurs in `s` at position 0, the comparison `find` makes at each
position. -/
def startsWith : Str → Str → Bool
  | _, [] => true
  | [], _ :: _ => false
  | c :: cs, p :: ps => c = p && startsWith cs ps

/-- The test `line.find(p) != std::string::npos`: `p` occurs somewhere in `line`. -/
def find : Str → Str → Bool
  | [], p => startsWith [] p
  | c :: cs, p => startsWith (c :: cs) p || find cs p

/-! ## Input streams -/

/-- An input stream (`std::ifstream`, `std::istringstream`): the characters not yet read and
the two state bits the source depends on. -/
structure IStream where
  buf : Str
  eofbit : Bool
  failbit : Bool
deriving DecidableEq, Repr

/-- The test `good()`. -/
def IStream.good (s : IStream) : Bool := !s.eofbit && !s.failbit

/-- A freshly opened stream over `content`. -/
def IStream.ofString (content : Str) : IStream := ⟨content, false, false⟩

/-- The characters before the first newline and, when there is a newline, what follows
it. -/
def splitLine : Str → Str × Option Str
  | [] => ([], none)
  | c :: cs =>
    if c = '\n' then ([], some cs)
    else ((c :: (splitLine cs).1), (splitLine cs).2)

/-- The call `std::getline(s, line)`. A stream that is not `good()` gets `failbit` and leaves
`line` as it was; otherwise `line` is replaced by the characters up to the next newline,
which is consumed; reaching the end of the file sets `eofbit`, and also `failbit` when
nothing at all was extracted. -/
def getline (s : IStream) (line : Str) : IStream × Str :=
  if s.good then
    match splitLine s.buf with
    | (l, some rest) => ({ s with buf := rest }, l)
    | (l, none) => (⟨[], true, l.isEmpty⟩, l)
  else ({ s with failbit := true }, line)

/-- The sentry of a formatted extraction: a stream that is not `good()` gets `failbit`;
otherwise leading white space is skipped, and meeting the end of the input while doing so
sets `eofbit` and `failbit`. The flag tells whether the extraction goes on. -/
def sentry (s : IStream) : IStream × Bool :=
  if s.good then
    let t := s.buf.dropWhile isspace
    if t = [] then (⟨[], true, true⟩, false) else ({ s with buf := t }, true)
  else ({ s with failbit := true }, false)

/-- The extraction `iss >> v` for `int v`, with `old` the content of `v` before it (`none`
when `v` is uninitialised). When the sentry refuses, `v` is left alone. A field without a
digit stores 0 and sets `failbit`; a value outside `int` stores the nearest bound and sets
`failbit`. -/
def extractInt (s : IStream) (old : Option Int) : IStream × Option Int :=
  match sentry s with
  | (s, false) => (s, old)
  | (s, true) =>
    let ds := (dropSign s.buf).takeWhile isdigit
    let rest := (dropSign s.buf).dropWhile isdigit
    let n := signedValue (signNegative s.buf) ds
    if ds = [] then (⟨rest, rest.isEmpty, true⟩, some 0)
    else if n < INT_MIN then (⟨rest, rest.isEmpty, true⟩, some INT_MIN)
    else if INT_MAX < n then (⟨rest, rest.isEmpty, true⟩, some INT_MAX)
    else (⟨rest, rest.isEmpty, false⟩, some n)

/-- The extraction `iss >> v` for `unsigned int v`. As for `int`, except that a magnitude
above `UINT_MAX` stores `UINT_MAX` and sets `failbit`, and a negative field within that
magnitude is stored modulo `2 ^ 32`. -/
def extractUInt (s : IStream) (old : Option Nat) : IStream × Option Nat :=
  match sentry s with
  | (s, false) => (s, old)
  | (s, true) =>
    let ds := (dropSign s.buf).takeWhile isdigit
    let rest := (dropSign s.buf).dropWhile isdigit
    let m := decimalValue ds
    if ds = [] then (⟨rest, rest.isEmpty, true⟩, some 0)
    else if UINT_MAX < m then (⟨rest, rest.isEmpty, true⟩, some UINT_MAX)
    else if signNegative s.buf then (⟨rest, rest.isEmpty, false⟩, some ((2 ^ 32 - m) % 2 ^ 32))
    else (⟨rest, rest.isEmpty, false⟩, some m)

/-- Splitting at white space, with `cur` the token being read. -/
def tokensAux : Str → Str → List Str
  | [], cur => if cur = [] then [] else [cur]
  | c :: cs, cur =>
    if isspace c then (if cur = [] then tokensAux cs [] else cur :: tokensAux cs [])
    else tokensAux cs (cur ++ [c])

/-- The strings that successive evaluations of `iss >> token` store in `token`, for a
stream `iss` over `line`, until the extraction fails: the maximal runs of characters that
are not white space. -/
def tokens (line : Str) : List Str := tokensAux line []

/-! ## The mesh reader `readPLYFile` -/

/-- A `glm::vec3`; the members `r`, `g`, `b` are other names of `x`, `y`, `z`. -/
structure Vec3 (F : Type) where
  x : F
  y : F
  z : F
deriving DecidableEq, Repr

/-- A `glm::vec2`. -/
structure Vec2 (F : Type) where
  x : F
  y : F
deriving DecidableEq, Repr

/-- The struct `VertexData` (lines 16-29). -/
structure VertexData (F : Type) where
  position : Vec3 F
  normal : Vec3 F
  color : Vec3 F
  texCoords : Vec2 F
deriving DecidableEq, Repr

/-- The struct `TriData` (lines 31-41): the array `indices[3]`, an element being `none`
while it holds an indeterminate value. -/
structure TriData where
  idx0 : Option Nat
  idx1 : Option Nat
  idx2 : Option Nat
deriving DecidableEq, Repr

/-- Modelled from the spec: the default constructors of `glm::vec3` and `glm::vec2`, which
belong to a library that is not among the sources. The data model of the specification says
that all fields default to zero, so the object `VertexData v;` of line 77 has every member
equal to `zero`. -/
def VertexData.default {F : Type} (zero : F) : VertexData F :=
  ⟨⟨zero, zero, zero⟩, ⟨zero, zero, zero⟩, ⟨zero, zero, zero⟩, ⟨zero, zero⟩⟩

/-- The constant `vertexElementStr`. -/
def vertexElementStr : Str := "element vertex ".toList

/-- The constant `propertyFloatStr`. -/
def propertyFloatStr : Str := "property float ".toList

/-- The constant `faceElementStr`. -/
def faceElementStr : Str := "element face ".toList

/-- The sentinel line. -/
def endHeaderStr : Str := "end_header".toList

/-- The locals `numVertices`, `numFaces` and `vertexProperties` of `readPLYFile`. -/
structure Header where
  numVertices : Int
  numFaces : Int
  vertexProperties : List Str
deriving DecidableEq, Repr

/-- One pass through lines 57-68, the body of the header loop before its `break` test. The
call `line.substr(n)` is `line.drop n`: it is only made when `find` succeeded, and then
`n` is at most the length of `line`. -/
def headerLine (h : Header) (line : Str) : Except Exn Header := do
  let numVertices ←
    if find line vertexElementStr then stoi (line.drop vertexElementStr.length)
    else pure h.numVertices
  let vertexProperties :=
    if find line propertyFloatStr ∧ numVertices > 0 then
      h.vertexProperties ++ [line.drop propertyFloatStr.length]
    else h.vertexProperties
  let numFaces ←
    if find line faceElementStr then stoi (line.drop faceElementStr.length)
    else pure h.numFaces
  pure ⟨numVertices, numFaces, vertexProperties⟩

/-- The header loop of lines 55-71, with the stream, the variable `line` and the header
locals threaded through. Every turn but the last consumes a character, so `fuel` above
the length of the input is never used up. -/
def headerLoop : Nat → IStream → Str → Header → Except Exn (IStream × Str × Header)
  | 0, s, line, h => pure (s, line, h)
  | fuel + 1, s, line, h =>
    let r := getline s line
    if r.1.failbit then pure (r.1, r.2, h)
    else do
      let h ← headerLine h r.2
      if r.2 = endHeaderStr then pure (r.1, r.2, h)
      else headerLoop fuel r.1 r.2 h

/-- Lines 83-104: the conversion of `token` stored in the member that `prop` names, unless
the conversion throws; a name that is none of the eleven leaves `v` alone and converts
nothing. -/
def assignProperty {F : Type} (stof : Str → Except Exn F) (prop token : Str)
    (v : VertexData F) : Except Exn (VertexData F) :=
  if prop = ['x'] then
    (stof token).map fun f => { v with position := { v.position with x := f } }
  else if prop = ['y'] then
    (stof token).map fun f => { v with position := { v.position with y := f } }
  else if prop = ['z'] then
    (stof token).map fun f => { v with position := { v.position with z := f } }
  else if prop = ['n', 'x'] then
    (stof token).map fun f => { v with normal := { v.normal with x := f } }
  else if prop = ['n', 'y'] then
    (stof token).map fun f => { v with normal := { v.normal with y := f } }
  else if prop = ['n', 'z'] then
    (stof token).map fun f => { v with normal := { v.normal with z := f } }
  else if prop = ['r', 'e', 'd'] then
    (stof token).map fun f => { v with color := { v.color with x := f } }
  else if prop = ['g', 'r', 'e', 'e', 'n'] then
    (stof token).map fun f => { v with color := { v.color with y := f } }
  else if prop = ['b', 'l', 'u', 'e'] then
    (stof token).map fun f => { v with color := { v.color with z := f } }
  else if prop = ['u'] then
    (stof token).map fun f => { v with texCoords := { v.texCoords with x := f } }
  else if prop = ['v'] then
    (stof token).map fun f => { v with texCoords := { v.texCoords with y := f } }
  else .ok v

/-- The loop of lines 80-106 over the tokens still to be extracted. -/
def vertexTokenLoop {F : Type} (stof : Str → Except Exn F) (vertexProperties : List Str) :
    List Str → Nat → VertexData F → Except Exn (VertexData F)
  | [], _, v => pure v
  | token :: rest, propIndex, v =>
    if h : propIndex < vertexProperties.length then do
      let v ← assignProperty stof (vertexProperties.get ⟨propIndex, h⟩) token v
      vertexTokenLoop stof vertexProperties rest (propIndex + 1) v
    else pure v

/-- Lines 76-106: the vertex built from one line. -/
def vertexRow {F : Type} (stof : Str → Except Exn F) (zero : F) (vertexProperties : List Str)
    (line : Str) : Except Exn (VertexData F) :=
  vertexTokenLoop stof vertexProperties (tokens line) 0 (VertexData.default zero)

/-- The vertex loop of lines 73-108, run for `n` turns. -/
def vertexLoop {F : Type} (stof : Str → Except Exn F) (zero : F) (vertexProperties : List Str) :
    Nat → IStream → Str → List (VertexData F) →
      Except Exn (IStream × Str × List (VertexData F))
  | 0, s, line, vertices => pure (s, line, vertices)
  | n + 1, s, line, vertices => do
    let r := getline s line
    let v ← vertexRow stof zero vertexProperties r.2
    vertexLoop stof zero vertexProperties n r.1 r.2 (vertices ++ [v])

/-- Lines 113-118: the triangle built from one line. The four variables start out
uninitialised. -/
def faceRow (line : Str) : TriData :=
  let r := extractInt (IStream.ofString line) none
  let r0 := extractUInt r.1 none
  let r1 := extractUInt r0.1 none
  let r2 := extractUInt r1.1 none
  ⟨r0.2, r1.2, r2.2⟩

/-- The face loop of lines 110-119, run for `n` turns. -/
def faceLoop : Nat → IStream → Str → List TriData → IStream × Str × List TriData
  | 0, s, line, triangles => (s, line, triangles)
  | n + 1, s, line, triangles =>
    let r := getline s line
    faceLoop n r.1 r.2 (triangles ++ [faceRow r.2])

/-- What `readPLYFile` writes to `std::cerr`. -/
inductive PlyDiagnostic where
  /-- Text `Error: Could not open PLY file: <path>`. -/
  | couldNotOpen
deriving DecidableEq, Repr

/-- The two output vectors after the call and the diagnostics written. -/
structure PlyOut (F : Type) where
  vertices : List (VertexData F)
  triangles : List TriData
  cerr : List PlyDiagnostic
deriving DecidableEq, Repr

/-- The function `readPLYFile` (lines 43-121). `file` is `none` when the file cannot be
opened, otherwise its characters; `vertices` and `triangles` are the vectors the caller
passes in. An `Except.error` result is an exception leaving the function. -/
def readPLYFile {F : Type} (stof : Str → Except Exn F) (zero : F) (file : Option Str)
    (vertices : List (VertexData F)) (triangles : List TriData) : Except Exn (PlyOut F) :=
  match file with
  | none => pure ⟨vertices, triangles, [.couldNotOpen]⟩
  | some content => do
    let hd ← headerLoop (content.length + 1) (IStream.ofString content) [] ⟨0, 0, []⟩
    let vs ← vertexLoop stof zero hd.2.2.vertexProperties hd.2.2.numVertices.toNat
      hd.1 hd.2.1 vertices
    let fs := faceLoop hd.2.2.numFaces.toNat vs.1 vs.2.1 triangles
    pure ⟨vs.2.2, fs.2.2, []⟩

/-! ## A decimal reading of `std::stof`, for concrete runs -/

/-- A decimal numeral: `digits / 10 ^ scale`, negated when `negative`. -/
structure Decimal where
  negative : Bool
  digits : Nat
  scale : Nat
deriving DecidableEq, Repr

/-- The conversion `std::stof` on tokens written as an optional sign, digits and an optional
fraction, with the float identified with the decimal numeral read: white space is skipped,
the longest such start of the token is converted, and `invalid_argument` is thrown when it holds no
digit. Exponents, hexadecimal floats, infinities and rounding are outside this reading. -/
def stofDecimal (token : Str) : Except Exn Decimal :=
  let t := token.dropWhile isspace
  let whole := (dropSign t).takeWhile isdigit
  let r := (dropSign t).dropWhile isdigit
  let frac := if r.head? = some '.' then r.tail.takeWhile isdigit else []
  if whole = [] ∧ frac = [] then .error .invalid_argument
  else .ok ⟨signNegative t, decimalValue (whole ++ frac), frac.length⟩

/-- The decimal numeral zero. -/
def Decimal.zero : Decimal := ⟨false, 0, 0⟩

/-- The pixel-data offset `loadARGBBMP` derives from the header of `bytes`. -/
def dataOffsetOf (bytes : List Byte) : Nat := deriveDataOffset (readLE32 bytes 0x0A)

/-- A bitmap of 2 × 2 pixels at 32 bits per pixel, stored uncompressed: compression field 0,
declared data size 16, sixteen bytes of pixel data after the header. -/
def bmpUncompressed32 : List Byte :=
  bmpHeaderBytes [54, 0, 0, 0] [2, 0, 0, 0] [2, 0, 0, 0] [32, 0] [0, 0, 0, 0] [16, 0, 0, 0]
    ++ List.replicate 16 255

/-- A bitmap of 2 × 2 pixels whose header declares 24 bits per pixel and carries 3 in the
compression field, with twelve bytes of pixel data. -/
def bmpBitfields24 : List Byte :=
  bmpHeaderBytes [54, 0, 0, 0] [2, 0, 0, 0] [2, 0, 0, 0] [24, 0] [3, 0, 0, 0] [12, 0, 0, 0]
    ++ List.replicate 12 255

/-- A header declaring 32 bits per pixel, width 65536, height 65536 and data size 0, with 3
in the compression field. -/
def bmpWide : List Byte :=
  bmpHeaderBytes [0, 0, 0, 0] [0, 0, 1, 0] [0, 0, 1, 0] [32, 0] [3, 0, 0, 0] [0, 0, 0, 0]

/-- A bitmap declaring 32 bits per pixel, width 2, height 2 and data size 0, with 3 in the
compression field, that ends five bytes after its header. -/
def bmpTruncated : List Byte :=
  bmpHeaderBytes [0, 0, 0, 0] [2, 0, 0, 0] [2, 0, 0, 0] [32, 0] [3, 0, 0, 0] [0, 0, 0, 0]
    ++ List.replicate 5 9

/-- A bitmap declaring 32 bits per pixel, width 2, height 2 and data size 0, with 3 in the
compression field and sixteen bytes of pixel data, numbered 1 to 16. -/
def bmpSmall : List Byte :=
  bmpHeaderBytes [0, 0, 0, 0] [2, 0, 0, 0] [2, 0, 0, 0] [32, 0] [3, 0, 0, 0] [0, 0, 0, 0]
    ++ [1, 2, 3, 4, 5, 6, 7, 8, 9, 10, 11, 12, 13, 14, 15, 16]

/-- A bitmap of 2 × 1 pixels that declares data offset 60 and data size 0, with 3 in the
compression field: six bytes numbered 101 to 106 follow the header, then eight bytes of
pixel data numbered 1 to 8. -/
def bmpOffset60 : List Byte :=
  bmpHeaderBytes [60, 0, 0, 0] [2, 0, 0, 0] [1, 0, 0, 0] [32, 0] [3, 0, 0, 0] [0, 0, 0, 0]
    ++ [101, 102, 103, 104, 105, 106] ++ [1, 2, 3, 4, 5, 6, 7, 8]

/-- A header that declares data offset 10 and data size 4, with 3 in the compression
field; bytes 10 to 13 of the file are the offset field itself. -/
def bmpOffset10 : List Byte :=
  bmpHeaderBytes [10, 0, 0, 0] [1, 0, 0, 0] [1, 0, 0, 0] [32, 0] [3, 0, 0, 0] [4, 0, 0, 0]

/-- Fifty-four bytes that start with the signature of a PNG file. -/
def notABitmap : List Byte := [137, 80, 78, 71] ++ List.replicate 50 0

/-! ## Mesh files as text -/

/-- The text of a file made of the given lines, each ended by a newline. -/
def renderLines : List Str → Str
  | [] => []
  | l :: ls => l ++ '\n' :: renderLines ls

/-- The text of a file made of the given lines with a newline between neighbours and none
behind the last. -/
def renderOpen : List Str → Str
  | [] => []
  | [l] => l
  | l :: k :: ls => l ++ '\n' :: renderOpen (k :: ls)

/-- The values the variable `line` takes in `n` successive calls of `getline`, and the
stream and `line` after the last of them. -/
def getlines : Nat → IStream → Str → List Str × IStream × Str
  | 0, s, line => ([], s, line)
  | n + 1, s, line =>
    ((getline s line).2 :: (getlines n (getline s line).1 (getline s line).2).1,
      (getlines n (getline s line).1 (getline s line).2).2)

/-- The content of `line` after the rows were read into it one after the other. -/
def lastLine : Str → List Str → Str
  | line, [] => line
  | _, r :: rs => lastLine r rs

/-- The results of `f` on the rows in turn, up to the first exception. -/
def mapRows {α : Type} (f : Str → Except Exn α) : List Str → Except Exn (List α)
  | [] => pure []
  | l :: ls => do
    let v ← f l
    let vs ← mapRows f ls
    pure (v :: vs)

/-- The header passes of `headerLine` over the lines in turn, up to the first exception. -/
def headerFold : Header → List Str → Except Exn Header
  | h, [] => pure h
  | h, l :: ls => do
    let h ← headerLine h l
    headerFold h ls

/-- A run of decimal digits. -/
def AllDigits (ds : Str) : Prop := ∀ c ∈ ds, isdigit c = true

/-- A string without white space. -/
def NoSpace (t : Str) : Prop := ∀ c ∈ t, isspace c = false

/-- A decimal numeral: a run of digits that is not empty. -/
def Numeral (ds : Str) : Prop := AllDigits ds ∧ ds ≠ []

/-- The character at which a run of digits ends, if any, is not a digit. -/
def StopsDigits (rest : Str) : Prop := ∀ c, rest.head? = some c → isdigit c = false

/-- A header line that carries none of the three markers, is not the sentinel and holds no
newline. -/
structure Neutral (l : Str) : Prop where
  no_vertex : find l vertexElementStr = false
  no_property : find l propertyFloatStr = false
  no_face : find l faceElementStr = false
  not_end : l ≠ endHeaderStr
  no_newline : '\n' ∉ l

/-- The header of a mesh file in the usual order: lines without a marker, the line
`element vertex <digits>`, one line `property float <name>` per property, lines without a
marker, the line `element face <digits>`, lines without a marker, and the sentinel. -/
structure HeaderText where
  pre : List Str
  vertexDigits : Str
  properties : List Str
  mid : List Str
  faceDigits : Str
  post : List Str

/-- The lines of the header before the sentinel. -/
def HeaderText.declarations (t : HeaderText) : List Str :=
  t.pre ++ (vertexElementStr ++ t.vertexDigits) :: (t.properties.map (propertyFloatStr ++ ·)
    ++ (t.mid ++ (faceElementStr ++ t.faceDigits) :: t.post))

/-- The text of the header, sentinel line included. -/
def HeaderText.render (t : HeaderText) : Str :=
  renderLines (t.declarations ++ [endHeaderStr])

/-- The number of vertices the header declares. -/
def HeaderText.numVertices (t : HeaderText) : Nat := decimalValue t.vertexDigits

/-- The number of faces the header declares. -/
def HeaderText.numFaces (t : HeaderText) : Nat := decimalValue t.faceDigits

/-- A well-formed header: both counts are decimal numerals within `int`, property names
hold no white space, and the other lines carry no marker. -/
structure HeaderText.WellFormed (t : HeaderText) : Prop where
  pre_neutral : ∀ l ∈ t.pre, Neutral l
  mid_neutral : ∀ l ∈ t.mid, Neutral l
  post_neutral : ∀ l ∈ t.post, Neutral l
  vertex_numeral : Numeral t.vertexDigits
  vertex_range : (t.numVertices : Int) ≤ INT_MAX
  face_numeral : Numeral t.faceDigits
  face_range : (t.numFaces : Int) ≤ INT_MAX
  property_names : ∀ p ∈ t.properties, NoSpace p

/-- The property list the header scan records: names are only taken down while the vertex
count read so far is positive. -/
def HeaderText.recorded (t : HeaderText) : List Str :=
  if 0 < t.numVertices then t.properties else []

/-- The row made of the given tokens, one blank between neighbours. -/
def joinTokens : List Str → Str
  | [] => []
  | [t] => t
  | t :: u :: ts => t ++ ' ' :: joinTokens (u :: ts)

/-- A token of a body row: characters other than white space, at least one. -/
def Token (t : Str) : Prop := NoSpace t ∧ t ≠ []

/-- A face row `<count> <i0> <i1> <i2>` by its four tokens. -/
structure FaceText where
  count : Str
  i0 : Str
  i1 : Str
  i2 : Str

/-- The text of a face row. -/
def FaceText.render (f : FaceText) : Str :=
  f.count ++ ' ' :: (f.i0 ++ ' ' :: (f.i1 ++ ' ' :: f.i2))

/-- The triangle `(i0, i1, i2)` of a face row. -/
def FaceText.triangle (f : FaceText) : TriData :=
  ⟨some (decimalValue f.i0), some (decimalValue f.i1), some (decimalValue f.i2)⟩

/-- A face row of a file with `n` vertices: the count is a decimal numeral within `int`,
the three indices are decimal numerals below `n`. -/
structure FaceText.WellFormed (n : Nat) (f : FaceText) : Prop where
  count_numeral : Numeral f.count
  count_range : (decimalValue f.count : Int) ≤ INT_MAX
  i0_numeral : Numeral f.i0
  i0_range : decimalValue f.i0 < n
  i1_numeral : Numeral f.i1
  i1_range : decimalValue f.i1 < n
  i2_numeral : Numeral f.i2
  i2_range : decimalValue f.i2 < n

/-- The eleven members of `VertexData` that a property name can select. -/
inductive Member where
  | px | py | pz | nx | ny | nz | red | green | blue | u | v
deriving DecidableEq, Repr

/-- The property name that selects a member. -/
def Member.name : Member → Str
  | .px => ['x']
  | .py => ['y']
  | .pz => ['z']
  | .nx => ['n', 'x']
  | .ny => ['n', 'y']
  | .nz => ['n', 'z']
  | .red => ['r', 'e', 'd']
  | .green => ['g', 'r', 'e', 'e', 'n']
  | .blue => ['b', 'l', 'u', 'e']
  | .u => ['u']
  | .v => ['v']

/-- The value of a member of a vertex. -/
def Member.get {F : Type} : Member → VertexData F → F
  | .px, w => w.position.x
  | .py, w => w.position.y
  | .pz, w => w.position.z
  | .nx, w => w.normal.x
  | .ny, w => w.normal.y
  | .nz, w => w.normal.z
  | .red, w => w.color.x
  | .green, w => w.color.y
  | .blue, w => w.color.z
  | .u, w => w.texCoords.x
  | .v, w => w.texCoords.y

/-- The property names `readPLYFile` recognises. -/
def recognizedNames : List Str :=
  [['x'], ['y'], ['z'], ['n', 'x'], ['n', 'y'], ['n', 'z'], ['r', 'e', 'd'],
    ['g', 'r', 'e', 'e', 'n'], ['b', 'l', 'u', 'e'], ['u'], ['v']]

/-- The value a member named `name` has after the values of `pairs` were assigned in turn to
the members their names select: the value of the last pair of that name, and `init` when
there is none. -/
def lastAssigned {F : Type} (init : F) (name : Str) (pairs : List (Str × F)) : F :=
  match (pairs.filter (fun p => p.1 = name)).getLast? with
  | some p => p.2
  | none => init

/-- What the specification says of a vertex read from a row: with the property names
`props` in declaration order and `vals` the values of the tokens of the row, value `i` goes
to the member that name `i` selects, for every `i` below both lengths: `x`, `y`, `z` to the
position, `nx`, `ny`, `nz` to the normal, `red`, `green`, `blue` to the colour, `u`, `v` to
the texture coordinate; every member without a value is zero. -/
structure FieldsAsSpecified {F : Type} (zero : F) (props : List Str) (vals : List F)
    (w : VertexData F) : Prop where
  position_x : w.position.x = lastAssigned zero ['x'] (props.zip vals)
  position_y : w.position.y = lastAssigned zero ['y'] (props.zip vals)
  position_z : w.position.z = lastAssigned zero ['z'] (props.zip vals)
  normal_x : w.normal.x = lastAssigned zero ['n', 'x'] (props.zip vals)
  normal_y : w.normal.y = lastAssigned zero ['n', 'y'] (props.zip vals)
  normal_z : w.normal.z = lastAssigned zero ['n', 'z'] (props.zip vals)
  color_r : w.color.x = lastAssigned zero ['r', 'e', 'd'] (props.zip vals)
  color_g : w.color.y = lastAssigned zero ['g', 'r', 'e', 'e', 'n'] (props.zip vals)
  color_b : w.color.z = lastAssigned zero ['b', 'l', 'u', 'e'] (props.zip vals)
  texCoords_x : w.texCoords.x = lastAssigned zero ['u'] (props.zip vals)
  texCoords_y : w.texCoords.y = lastAssigned zero ['v'] (props.zip vals)

/-- The tokens convert to the values, one by one. -/
def Converts {F : Type} (stof : Str → Except Exn F) (toks : List Str) (vals : List F) : Prop :=
  List.Forall₂ (fun t f => stof t = .ok f) toks vals

/-- A mesh file by its parts: header, vertex rows as lists of tokens, face rows, and the
way the file ends: `some t` when the last row is ended by a newline and the text `t` follows
it, `none` when the file ends with the last character of the last row. -/
structure MeshText where
  header : HeaderText
  vertexRows : List (List Str)
  faceRows : List FaceText
  ending : Option Str

/-- The lines of the body: vertex rows, then face rows. -/
def MeshText.bodyLines (m : MeshText) : List Str :=
  m.vertexRows.map joinTokens ++ m.faceRows.map FaceText.render

/-- The characters of the file. -/
def MeshText.render (m : MeshText) : Str :=
  m.header.render ++
    (match m.ending with
    | some t => renderLines m.bodyLines ++ t
    | none => renderOpen m.bodyLines)

/-- A well-formed mesh file: a well-formed header declaring `N` vertices and `M` faces,
followed by `N` vertex rows of tokens and `M` face rows with every index below `N`. -/
structure MeshText.WellFormed (m : MeshText) : Prop where
  header : m.header.WellFormed
  vertex_count : m.vertexRows.length = m.header.numVertices
  face_count : m.faceRows.length = m.header.numFaces
  vertex_tokens : ∀ row ∈ m.vertexRows, ∀ t ∈ row, Token t
  faces : ∀ f ∈ m.faceRows, f.WellFormed m.header.numVertices

/-- Every token of every vertex row is a number `stof` converts. -/
def MeshText.Numeric {F : Type} (stof : Str → Except Exn F) (m : MeshText) : Prop :=
  ∀ row ∈ m.vertexRows, ∀ t ∈ row, ∃ f, stof t = .ok f

instance (ds : Str) : Decidable (AllDigits ds) := by
  unfold AllDigits; infer_instance

instance (t : Str) : Decidable (NoSpace t) := by
  unfold NoSpace; infer_instance

instance (ds : Str) : Decidable (Numeral ds) := by
  unfold Numeral; infer_instance

instance (t : Str) : Decidable (Token t) := by
  unfold Token; infer_instance

instance (l : Str) : Decidable (Neutral l) :=
  decidable_of_iff
    (find l vertexElementStr = false ∧ find l propertyFloatStr = false ∧
      find l faceElementStr = false ∧ l ≠ endHeaderStr ∧ '\n' ∉ l)
    ⟨fun ⟨a, b, c, d, e⟩ => ⟨a, b, c, d, e⟩, fun ⟨a, b, c, d, e⟩ => ⟨a, b, c, d, e⟩⟩

instance (t : HeaderText) : Decidable t.WellFormed :=
  decidable_of_iff
    ((∀ l ∈ t.pre, Neutral l) ∧ (∀ l ∈ t.mid, Neutral l) ∧ (∀ l ∈ t.post, Neutral l) ∧
      Numeral t.vertexDigits ∧ (t.numVertices : Int) ≤ INT_MAX ∧ Numeral t.faceDigits ∧
      (t.numFaces : Int) ≤ INT_MAX ∧ ∀ p ∈ t.properties, NoSpace p)
    ⟨fun ⟨a, b, c, d, e, f, g, h⟩ => ⟨a, b, c, d, e, f, g, h⟩,
      fun ⟨a, b, c, d, e, f, g, h⟩ => ⟨a, b, c, d, e, f, g, h⟩⟩

instance (n : Nat) (f : FaceText) : Decidable (f.WellFormed n) :=
  decidable_of_iff
    (Numeral f.count ∧ (decimalValue f.count : Int) ≤ INT_MAX ∧ Numeral f.i0 ∧
      decimalValue f.i0 < n ∧ Numeral f.i1 ∧ decimalValue f.i1 < n ∧ Numeral f.i2 ∧
      decimalValue f.i2 < n)
    ⟨fun ⟨a, b, c, d, e, f, g, h⟩ => ⟨a, b, c, d, e, f, g, h⟩,
      fun ⟨a, b, c, d, e, f, g, h⟩ => ⟨a, b, c, d, e, f, g, h⟩⟩

instance (m : MeshText) : Decidable m.WellFormed :=
  decidable_of_iff
    (m.header.WellFormed ∧ m.vertexRows.length = m.header.numVertices ∧
      m.faceRows.length = m.header.numFaces ∧ (∀ row ∈ m.vertexRows, ∀ t ∈ row, Token t) ∧
      ∀ f ∈ m.faceRows, f.WellFormed m.header.numVertices)
    ⟨fun ⟨a, b, c, d, e⟩ => ⟨a, b, c, d, e⟩, fun ⟨a, b, c, d, e⟩ => ⟨a, b, c, d, e⟩⟩

deriving instance DecidableEq for Except

/-! ## Sample files -/

/-- A header declaring three vertices with the properties `x y z u v` and one face. -/
def sampleHeader : HeaderText where
  pre := ["ply".toList, "format ascii 1.0".toList]
  vertexDigits := "3".toList
  properties := ["x".toList, "y".toList, "z".toList, "u".toList, "v".toList]
  mid := []
  faceDigits := "1".toList
  post := ["property list uchar int vertex_indices".toList]

/-- A mesh of three vertices and one triangle; its first vertex row is
`1.0 2.0 3.0 0.5 0.25`. -/
def sampleMesh : MeshText where
  header := sampleHeader
  vertexRows :=
    [["1.0".toList, "2.0".toList, "3.0".toList, "0.5".toList, "0.25".toList],
      ["4.0".toList, "5.0".toList, "6.0".toList, "1.0".toList, "0.0".toList],
      ["7.5".toList, "-8.0".toList, "9.0".toList]]
  faceRows := [⟨"3".toList, "0".toList, "1".toList, "2".toList⟩]
  ending := some []

/-- The file `sampleMesh` with the count token of its face row replaced by 2147483648. -/
def meshCountOverflow : MeshText :=
  { sampleMesh with
    faceRows := [⟨"2147483648".toList, "0".toList, "1".toList, "2".toList⟩] }

/-- A file whose header declares two vertices and one face and whose body holds a single
row. -/
def meshShort : Str :=
  "element vertex 2\nproperty float x\nelement face 1\nend_header\n1.0\n".toList

/-- A file whose header declares one vertex and ends with the sentinel line, without a
newline after it. -/
def meshHeaderOnly : Str :=
  "element vertex 1\nproperty float x\nend_header".toList

/-- A file whose only vertex row holds the token `abc` under the property `confidence`, and
whose face row is `3 a b c`. -/
def meshMalformedTokens : Str :=
  ("element vertex 1\nproperty float confidence\nelement face 1\nend_header\n"
    ++ "abc\n3 a b c\n").toList

/-- A header declaring two vertices with the properties `x` and `y`. -/
def headerXY : HeaderText where
  pre := []
  vertexDigits := "2".toList
  properties := ["x".toList, "y".toList]
  mid := []
  faceDigits := "0".toList
  post := []

/-- A file with the properties `x confidence y` and the vertex row `1.0 9.9 2.0`. -/
def meshUnknownProperty : Str :=
  ("element vertex 1\nproperty float x\nproperty float confidence\nproperty float y\n"
    ++ "end_header\n1.0 9.9 2.0\n").toList

/-- A file that declares the property `x` before the vertex count. -/
def meshPropertyFirst : Str :=
  "property float x\nelement vertex 1\nend_header\n1.5\n".toList

/-! ## Lemmas on characters and numerals -/

theorem isdigit_not_isspace {c : Char} (h : isdigit c = true) : isspace c = false := by
  simp only [isdigit, Bool.and_eq_true, decide_eq_true_eq] at h
  have h1 : c.toNat ≠ 32 ∧ c.toNat ≠ 9 ∧ c.toNat ≠ 10 ∧ c.toNat ≠ 13 ∧ c.toNat ≠ 11 ∧ c.toNat ≠ 12 := by
    have : '0'.toNat = 48 := rfl
    have : '9'.toNat = 57 := rfl
    omega
  simp only [isspace, Bool.or_eq_false_iff, decide_eq_false_iff_not]
  refine ⟨⟨⟨⟨⟨?_, ?_⟩, ?_⟩, ?_⟩, ?_⟩, ?_⟩ <;> intro hc <;> subst hc <;> simp at h1

/-! ## Lemmas on strings -/

theorem vertexElementStr_eq : vertexElementStr
    = ['e', 'l', 'e', 'm', 'e', 'n', 't', ' ', 'v', 'e', 'r', 't', 'e', 'x', ' '] := by
  decide

theorem propertyFloatStr_eq : propertyFloatStr
    = ['p', 'r', 'o', 'p', 'e', 'r', 't', 'y', ' ', 'f', 'l', 'o', 'a', 't', ' '] := by
  decide

theorem faceElementStr_eq : faceElementStr
    = ['e', 'l', 'e', 'm', 'e', 'n', 't', ' ', 'f', 'a', 'c', 'e', ' '] := by
  decide

theorem endHeaderStr_eq : endHeaderStr
    = ['e', 'n', 'd', '_', 'h', 'e', 'a', 'd', 'e', 'r'] := by
  decide

theorem startsWith_nil (l : Str) : startsWith l [] = true := by
  cases l <;> rfl

theorem startsWith_append (p l : Str) : startsWith (p ++ l) p = true := by
  induction p with
  | nil => exact startsWith_nil _
  | cons c cs ih => simp [startsWith, ih]

theorem startsWith_mem {l p : Str} (h : startsWith l p = true) : ∀ c ∈ p, c ∈ l := by
  induction p generalizing l with
  | nil => intro c hc; cases hc
  | cons a as ih =>
    cases l with
    | nil => simp [startsWith] at h
    | cons b bs =>
      simp only [startsWith, Bool.and_eq_true, decide_eq_true_eq] at h
      intro c hc
      rcases List.mem_cons.mp hc with rfl | hc
      · simp [h.1]
      · exact List.mem_cons_of_mem _ (ih h.2 c hc)

theorem find_mem {l p : Str} (h : find l p = true) : ∀ c ∈ p, c ∈ l := by
  induction l with
  | nil => exact startsWith_mem h
  | cons b bs ih =>
    simp only [find, Bool.or_eq_true] at h
    rcases h with h | h
    · exact startsWith_mem h
    · intro c hc
      exact List.mem_cons_of_mem _ (ih h c hc)

theorem find_eq_false_of_not_mem {l p : Str} (c : Char) (hp : c ∈ p) (hl : c ∉ l) :
    find l p = false := by
  cases h : find l p with
  | false => rfl
  | true => exact absurd (find_mem h c hp) hl

theorem find_append_self (p l : Str) : find (p ++ l) p = true := by
  have h := startsWith_append p l
  cases hpl : p ++ l with
  | nil => rw [hpl] at h; simpa [find] using h
  | cons c cs => rw [hpl] at h; simp [find, h]

theorem allDigits_noSpace {ds : Str} (h : AllDigits ds) : NoSpace ds :=
  fun c hc => isdigit_not_isspace (h c hc)

theorem allDigits_not_mem {ds : Str} (h : AllDigits ds) (c : Char) (hc : isdigit c = false) :
    c ∉ ds := by
  intro hm
  rw [h c hm] at hc
  cases hc

theorem noSpace_not_mem {t : Str} (h : NoSpace t) (c : Char) (hc : isspace c = true) :
    c ∉ t := by
  intro hm
  rw [h c hm] at hc
  cases hc

theorem find_vertexLine_property (ds : Str) (hds : AllDigits ds) :
    find (vertexElementStr ++ ds) propertyFloatStr = false := by
  have h : find ds propertyFloatStr = false :=
    find_eq_false_of_not_mem 'p' (by decide) (allDigits_not_mem hds 'p' (by decide))
  rw [propertyFloatStr_eq] at h ⊢
  simp [vertexElementStr_eq, find, startsWith, h]

theorem find_vertexLine_face (ds : Str) (hds : AllDigits ds) :
    find (vertexElementStr ++ ds) faceElementStr = false := by
  have h : find ds faceElementStr = false :=
    find_eq_false_of_not_mem 'e' (by decide) (allDigits_not_mem hds 'e' (by decide))
  rw [faceElementStr_eq] at h ⊢
  simp [vertexElementStr_eq, find, startsWith, h]

theorem find_faceLine_vertex (ds : Str) (hds : AllDigits ds) :
    find (faceElementStr ++ ds) vertexElementStr = false := by
  have h : find ds vertexElementStr = false :=
    find_eq_false_of_not_mem 'e' (by decide) (allDigits_not_mem hds 'e' (by decide))
  rw [vertexElementStr_eq] at h ⊢
  simp [faceElementStr_eq, find, startsWith, h]

theorem find_faceLine_property (ds : Str) (hds : AllDigits ds) :
    find (faceElementStr ++ ds) propertyFloatStr = false := by
  have h : find ds propertyFloatStr = false :=
    find_eq_false_of_not_mem 'p' (by decide) (allDigits_not_mem hds 'p' (by decide))
  rw [propertyFloatStr_eq] at h ⊢
  simp [faceElementStr_eq, find, startsWith, h]

theorem find_propertyLine_vertex (name : Str) (hn : NoSpace name) :
    find (propertyFloatStr ++ name) vertexElementStr = false := by
  have h : find name vertexElementStr = false :=
    find_eq_false_of_not_mem ' ' (by decide) (noSpace_not_mem hn ' ' (by decide))
  rw [vertexElementStr_eq] at h ⊢
  simp [propertyFloatStr_eq, find, startsWith, h]

theorem find_propertyLine_face (name : Str) (hn : NoSpace name) :
    find (propertyFloatStr ++ name) faceElementStr = false := by
  have h : find name faceElementStr = false :=
    find_eq_false_of_not_mem ' ' (by decide) (noSpace_not_mem hn ' ' (by decide))
  rw [faceElementStr_eq] at h ⊢
  simp [propertyFloatStr_eq, find, startsWith, h]

/-! ## Numerals -/

theorem isdigit_ne_minus {c : Char} (h : isdigit c = true) : c ≠ '-' := by
  rintro rfl; revert h; decide

theorem isdigit_ne_plus {c : Char} (h : isdigit c = true) : c ≠ '+' := by
  rintro rfl; revert h; decide

theorem stopsDigits_nil : StopsDigits [] := by
  intro c h; cases h

theorem stopsDigits_space (rest : Str) : StopsDigits (' ' :: rest) := by
  intro c h
  simp only [List.head?_cons, Option.some.injEq] at h
  subst h
  decide

theorem takeWhile_digits (ds rest : Str) (hds : AllDigits ds) (hr : StopsDigits rest) :
    (ds ++ rest).takeWhile isdigit = ds := by
  induction ds with
  | nil =>
    cases rest with
    | nil => rfl
    | cons c cs => simp [List.takeWhile, hr c rfl]
  | cons d ds ih =>
    have hd : isdigit d = true := hds d (List.mem_cons_self _ _)
    rw [List.cons_append, List.takeWhile_cons, hd]
    simp only [if_true]
    rw [ih (fun c hc => hds c (List.mem_cons_of_mem _ hc))]

theorem dropWhile_digits (ds rest : Str) (hds : AllDigits ds) (hr : StopsDigits rest) :
    (ds ++ rest).dropWhile isdigit = rest := by
  induction ds with
  | nil =>
    cases rest with
    | nil => rfl
    | cons c cs => simp [List.dropWhile, hr c rfl]
  | cons d ds ih =>
    have hd : isdigit d = true := hds d (List.mem_cons_self _ _)
    rw [List.cons_append, List.dropWhile_cons, hd]
    simp only [if_true]
    rw [ih (fun c hc => hds c (List.mem_cons_of_mem _ hc))]

theorem dropWhile_isspace_digits (ds rest : Str) (hds : AllDigits ds) (hne : ds ≠ []) :
    (ds ++ rest).dropWhile isspace = ds ++ rest := by
  cases ds with
  | nil => exact absurd rfl hne
  | cons d ds =>
    have hd : isspace d = false := isdigit_not_isspace (hds d (List.mem_cons_self _ _))
    simp [List.dropWhile, hd]

theorem dropSign_digits (ds rest : Str) (hds : AllDigits ds) (hne : ds ≠ []) :
    dropSign (ds ++ rest) = ds ++ rest := by
  cases ds with
  | nil => exact absurd rfl hne
  | cons d ds =>
    have hd := hds d (List.mem_cons_self _ _)
    simp [dropSign, isdigit_ne_minus hd, isdigit_ne_plus hd]

theorem signNegative_digits (ds rest : Str) (hds : AllDigits ds) (hne : ds ≠ []) :
    signNegative (ds ++ rest) = false := by
  cases ds with
  | nil => exact absurd rfl hne
  | cons d ds =>
    have hd := hds d (List.mem_cons_self _ _)
    simp [signNegative, isdigit_ne_minus hd]

theorem stoi_digits (ds : Str) (hds : AllDigits ds) (hne : ds ≠ [])
    (hmax : (decimalValue ds : Int) ≤ INT_MAX) : stoi ds = .ok (decimalValue ds : Int) := by
  have h1 := dropWhile_isspace_digits ds [] hds hne
  have h2 := dropSign_digits ds [] hds hne
  have h3 := takeWhile_digits ds [] hds stopsDigits_nil
  have h4 := signNegative_digits ds [] hds hne
  simp only [List.append_nil] at h1 h2 h3 h4
  have h5 : ¬ ((decimalValue ds : Int) < INT_MIN ∨ INT_MAX < (decimalValue ds : Int)) := by
    have : INT_MIN = -2147483648 := rfl
    omega
  simp only [stoi, h1, h2, h3, h4, hne, signedValue, if_false, Bool.false_eq_true]
  rw [if_neg h5]

/-! ## Decimal numerals are what `Nat.repr` prints -/

theorem digitChar_digit (k : Nat) (hk : k < 10) :
    isdigit (Nat.digitChar k) = true ∧ digitValue (Nat.digitChar k) = k := by
  interval_cases k <;> decide

theorem decimalValue_snoc (ds : Str) (c : Char) :
    decimalValue (ds ++ [c]) = 10 * decimalValue ds + digitValue c := by
  simp [decimalValue, List.foldl_append]

theorem toDigitsCore_numeral (fuel n : Nat) (ds : Str) (h : n < fuel) :
    ∃ pre, Nat.toDigitsCore 10 fuel n ds = pre ++ ds ∧ Numeral pre ∧ decimalValue pre = n := by
  induction fuel generalizing n ds with
  | zero => cases h
  | succ f ih =>
    have hd := digitChar_digit (n % 10) (Nat.mod_lt _ (by decide))
    by_cases h0 : n / 10 = 0
    · refine ⟨[Nat.digitChar (n % 10)], by simp [Nat.toDigitsCore, h0], ⟨?_, by simp⟩, ?_⟩
      · intro c hc
        rw [List.mem_singleton.mp hc]
        exact hd.1
      · have : decimalValue [Nat.digitChar (n % 10)] = digitValue (Nat.digitChar (n % 10)) := by
          simp [decimalValue]
        rw [this, hd.2]
        omega
    · obtain ⟨pre, hpre, hnum, hval⟩ := ih (n / 10) (Nat.digitChar (n % 10) :: ds) (by omega)
      refine ⟨pre ++ [Nat.digitChar (n % 10)], by simp [Nat.toDigitsCore, h0, hpre],
        ⟨?_, by simp⟩, ?_⟩
      · intro c hc
        rcases List.mem_append.mp hc with hc | hc
        · exact hnum.1 c hc
        · rw [List.mem_singleton.mp hc]
          exact hd.1
      · rw [decimalValue_snoc, hval, hd.2]
        omega

/-- The text `Nat.repr n` is a decimal numeral and `decimalValue` reads `n` back from it. -/
theorem decimalValue_repr (n : Nat) :
    Numeral (Nat.repr n).toList ∧ decimalValue (Nat.repr n).toList = n := by
  obtain ⟨pre, hpre, hnum, hval⟩ := toDigitsCore_numeral (n + 1) n [] (by omega)
  have : (Nat.repr n).toList = pre := by
    simp [Nat.repr, Nat.toDigits, hpre, List.asString]
  rw [this]
  exact ⟨hnum, hval⟩

/-! ## One pass of the header loop -/

theorem drop_marker (p l : Str) : (p ++ l).drop p.length = l := by
  simp

theorem headerLine_vertex (h : Header) (ds : Str) (hds : AllDigits ds) (hne : ds ≠ [])
    (hmax : (decimalValue ds : Int) ≤ INT_MAX) :
    headerLine h (vertexElementStr ++ ds)
      = .ok ⟨(decimalValue ds : Int), h.numFaces, h.vertexProperties⟩ := by
  simp [headerLine, find_append_self, find_vertexLine_property ds hds,
    find_vertexLine_face ds hds, stoi_digits ds hds hne hmax, bind, Except.bind, pure,
    Except.pure]

theorem headerLine_face (h : Header) (ds : Str) (hds : AllDigits ds) (hne : ds ≠ [])
    (hmax : (decimalValue ds : Int) ≤ INT_MAX) :
    headerLine h (faceElementStr ++ ds)
      = .ok ⟨h.numVertices, (decimalValue ds : Int), h.vertexProperties⟩ := by
  simp [headerLine, find_append_self, find_faceLine_property ds hds,
    find_faceLine_vertex ds hds, stoi_digits ds hds hne hmax, bind, Except.bind, pure,
    Except.pure]

theorem headerLine_property (h : Header) (name : Str) (hn : NoSpace name) :
    headerLine h (propertyFloatStr ++ name)
      = .ok ⟨h.numVertices, h.numFaces,
          if h.numVertices > 0 then h.vertexProperties ++ [name] else h.vertexProperties⟩ := by
  simp [headerLine, find_append_self, find_propertyLine_vertex name hn,
    find_propertyLine_face name hn, bind, Except.bind, pure, Except.pure]

theorem headerLine_neutral (h : Header) (l : Str) (hl : Neutral l) :
    headerLine h l = .ok h := by
  simp [headerLine, hl.no_vertex, hl.no_property, hl.no_face, bind, Except.bind, pure,
    Except.pure]

theorem headerLine_end (h : Header) : headerLine h endHeaderStr = .ok h := by
  have h1 : find endHeaderStr vertexElementStr = false := by decide
  have h2 : find endHeaderStr propertyFloatStr = false := by decide
  have h3 : find endHeaderStr faceElementStr = false := by decide
  simp [headerLine, h1, h2, h3, bind, Except.bind, pure, Except.pure]

/-! ## Reading lines -/

theorem splitLine_line (l rest : Str) (h : '\n' ∉ l) :
    splitLine (l ++ '\n' :: rest) = (l, some rest) := by
  induction l with
  | nil => simp [splitLine]
  | cons c cs ih =>
    have hc : c ≠ '\n' := fun e => h (e ▸ List.mem_cons_self _ _)
    have hcs : '\n' ∉ cs := fun e => h (List.mem_cons_of_mem _ e)
    simp [splitLine, hc, ih hcs]

theorem getline_line (l rest line : Str) (h : '\n' ∉ l) :
    getline ⟨l ++ '\n' :: rest, false, false⟩ line = (⟨rest, false, false⟩, l) := by
  simp [getline, IStream.good, splitLine_line l rest h]

theorem getline_empty (line : Str) :
    getline ⟨[], false, false⟩ line = (⟨[], true, true⟩, []) := by
  simp [getline, IStream.good, splitLine]

theorem getline_not_good (s : IStream) (line : Str) (h : s.good = false) :
    getline s line = ({ s with failbit := true }, line) := by
  simp [getline, h]

theorem getlines_rows (rows : List Str) (rest line : Str) (h : ∀ r ∈ rows, '\n' ∉ r) :
    getlines rows.length ⟨renderLines rows ++ rest, false, false⟩ line
      = (rows, ⟨rest, false, false⟩, lastLine line rows) := by
  induction rows generalizing line with
  | nil => rfl
  | cons r rs ih =>
    have hr : '\n' ∉ r := h r (List.mem_cons_self _ _)
    have hrs : ∀ r ∈ rs, '\n' ∉ r := fun x hx => h x (List.mem_cons_of_mem _ hx)
    simp only [List.length_cons, getlines, renderLines, List.append_assoc, List.cons_append,
      getline_line r _ line hr, ih r hrs, lastLine]

theorem splitLine_open (l : Str) (h : '\n' ∉ l) : splitLine l = (l, none) := by
  induction l with
  | nil => rfl
  | cons c cs ih =>
    have hc : c ≠ '\n' := fun e => h (e ▸ List.mem_cons_self _ _)
    have hcs : '\n' ∉ cs := fun e => h (List.mem_cons_of_mem _ e)
    simp [splitLine, hc, ih hcs]

theorem getlines_open (rows : List Str) (line : Str) (h : ∀ r ∈ rows, '\n' ∉ r) :
    (getlines rows.length ⟨renderOpen rows, false, false⟩ line).1 = rows := by
  induction rows generalizing line with
  | nil => rfl
  | cons r rs ih =>
    have hr : '\n' ∉ r := h r (List.mem_cons_self _ _)
    have hrs : ∀ r ∈ rs, '\n' ∉ r := fun x hx => h x (List.mem_cons_of_mem _ hx)
    cases rs with
    | nil => simp [getlines, renderOpen, getline, IStream.good, splitLine_open r hr]
    | cons k ks =>
      have := ih r hrs
      rw [List.length_cons, getlines, renderOpen, getline_line r _ line hr]
      simp only []
      rw [this]

theorem getlines_add (n m : Nat) (s : IStream) (line : Str) :
    getlines (n + m) s line
      = ((getlines n s line).1 ++ (getlines m (getlines n s line).2.1 (getlines n s line).2.2).1,
          (getlines m (getlines n s line).2.1 (getlines n s line).2.2).2) := by
  induction n generalizing s line with
  | zero => simp [getlines]
  | succ n ih =>
    rw [Nat.add_right_comm]
    simp only [getlines, ih, List.cons_append]

theorem getlines_not_good (n : Nat) (s : IStream) (line : Str) (h : s.failbit = true) :
    getlines n s line = (List.replicate n line, s, line) := by
  induction n with
  | zero => rfl
  | succ n ih =>
    have hg : s.good = false := by simp [IStream.good, h]
    have hs : ({ s with failbit := true } : IStream) = s := by
      cases s; simp_all
    simp only [getlines, getline_not_good s line hg, hs, ih, List.replicate_succ]

theorem getlines_exhausted (n : Nat) (line : Str) :
    getlines (n + 1) ⟨[], false, false⟩ line
      = (List.replicate (n + 1) [], ⟨[], true, true⟩, []) := by
  simp only [getlines, getline_empty, getlines_not_good n ⟨[], true, true⟩ [] rfl,
    List.replicate_succ]

theorem getlines_length (n : Nat) (s : IStream) (line : Str) :
    (getlines n s line).1.length = n := by
  induction n generalizing s line with
  | zero => rfl
  | succ n ih => simp [getlines, ih]

/-! ## The body loops as maps over the lines read -/

theorem vertexLoop_eq {F : Type} (stof : Str → Except Exn F) (zero : F) (props : List Str)
    (n : Nat) (s : IStream) (line : Str) (vertices : List (VertexData F)) :
    vertexLoop stof zero props n s line vertices
      = (mapRows (vertexRow stof zero props) (getlines n s line).1).map
          (fun vs => ((getlines n s line).2.1, (getlines n s line).2.2, vertices ++ vs)) := by
  induction n generalizing s line vertices with
  | zero => simp [vertexLoop, getlines, mapRows, pure, Except.pure, Except.map]
  | succ n ih =>
    simp only [vertexLoop, getlines, mapRows, bind, Except.bind]
    cases hv : vertexRow stof zero props (getline s line).2 with
    | error e => simp [Except.map]
    | ok v =>
      simp only [ih]
      cases mapRows (vertexRow stof zero props)
        (getlines n (getline s line).1 (getline s line).2).1 with
      | error e => simp [Except.map]
      | ok vs => simp [Except.map, pure, Except.pure]

theorem faceLoop_eq (n : Nat) (s : IStream) (line : Str) (triangles : List TriData) :
    faceLoop n s line triangles
      = ((getlines n s line).2.1, (getlines n s line).2.2,
          triangles ++ (getlines n s line).1.map faceRow) := by
  induction n generalizing s line triangles with
  | zero => simp [faceLoop, getlines]
  | succ n ih => simp [faceLoop, getlines, ih]

/-! ## The fuel of the header loop is never used up -/

theorem splitLine_some_length (buf l rest : Str) (h : splitLine buf = (l, some rest)) :
    rest.length < buf.length := by
  induction buf generalizing l with
  | nil => simp [splitLine] at h
  | cons c cs ih =>
    by_cases hc : c = '\n'
    · simp only [splitLine, hc, if_true, Prod.mk.injEq, Option.some.injEq] at h
      rw [← h.2]
      simp
    · simp only [splitLine, hc, if_false, Prod.mk.injEq] at h
      have := ih (splitLine cs).1 (Prod.ext rfl h.2)
      simp only [List.length_cons]
      omega

theorem splitLine_none_length (buf l : Str) (h : splitLine buf = (l, none)) :
    l.length = buf.length := by
  induction buf generalizing l with
  | nil =>
    simp only [splitLine, Prod.mk.injEq, and_true] at h
    rw [← h]
  | cons c cs ih =>
    by_cases hc : c = '\n'
    · simp [splitLine, hc] at h
    · simp only [splitLine, hc, if_false, Prod.mk.injEq] at h
      have := ih (splitLine cs).1 (Prod.ext rfl h.2)
      rw [← h.1]
      simp only [List.length_cons]
      omega

theorem getline_progress (s : IStream) (line : Str) (n : Nat) (hn : s.buf.length < n + 1)
    (hok : (getline s line).1.failbit = false) : (getline s line).1.buf.length < n := by
  unfold getline at hok ⊢
  by_cases hg : s.good = true
  · simp only [hg, if_true] at hok ⊢
    rcases hsp : splitLine s.buf with ⟨l, _ | rest⟩
    · simp only [hsp] at hok ⊢
      have hl := splitLine_none_length _ _ hsp
      have : l ≠ [] := by
        intro e
        simp [e] at hok
      have : 0 < l.length := List.length_pos.mpr this
      simp only [List.length_nil]
      omega
    · simp only [hsp]
      have := splitLine_some_length _ _ _ hsp
      omega
  · simp [hg] at hok

/-- One more unit of fuel than the length of the unread input changes nothing: the turn of
`headerLoop` that has no fuel left is never reached from `readPLYFile`. -/
theorem headerLoop_fuel_succ (fuel : Nat) (s : IStream) (line : Str) (h : Header)
    (hf : s.buf.length < fuel) :
    headerLoop (fuel + 1) s line h = headerLoop fuel s line h := by
  induction fuel generalizing s line h with
  | zero => cases hf
  | succ n ih =>
    rw [headerLoop, headerLoop]
    by_cases hfail : (getline s line).1.failbit = true
    · simp only [hfail, if_true]
    · simp only [hfail, Bool.false_eq_true, if_false]
      have hprog := getline_progress s line n hf (by simpa using hfail)
      cases headerLine h (getline s line).2 with
      | error e => rfl
      | ok h1 =>
        simp only [bind, Except.bind]
        by_cases hend : (getline s line).2 = endHeaderStr
        · simp only [hend, if_true]
        · simp only [hend, if_false]
          exact ih _ _ _ hprog

theorem headerLoop_fuel_add (k fuel : Nat) (s : IStream) (line : Str) (h : Header)
    (hf : s.buf.length < fuel) :
    headerLoop (fuel + k) s line h = headerLoop fuel s line h := by
  induction k with
  | zero => rfl
  | succ k ih =>
    rw [← Nat.add_assoc, headerLoop_fuel_succ (fuel + k) s line h (by omega), ih]

/-! ## The header loop -/

theorem headerFold_append (h : Header) (a b : List Str) :
    headerFold h (a ++ b) = (headerFold h a).bind (fun h => headerFold h b) := by
  induction a generalizing h with
  | nil => rfl
  | cons l ls ih =>
    simp only [List.cons_append, headerFold, bind]
    cases headerLine h l with
    | error e => rfl
    | ok h1 => simp only [Except.bind]; exact ih h1

theorem headerFold_neutral (h : Header) (ls : List Str) (hl : ∀ l ∈ ls, Neutral l) :
    headerFold h ls = .ok h := by
  induction ls with
  | nil => rfl
  | cons l ls ih =>
    simp only [headerFold, headerLine_neutral h l (hl l (List.mem_cons_self _ _)), bind,
      Except.bind]
    exact ih (fun x hx => hl x (List.mem_cons_of_mem _ hx))

theorem headerFold_properties (h : Header) (ps : List Str) (hp : ∀ p ∈ ps, NoSpace p) :
    headerFold h (ps.map (propertyFloatStr ++ ·))
      = .ok ⟨h.numVertices, h.numFaces,
          if h.numVertices > 0 then h.vertexProperties ++ ps else h.vertexProperties⟩ := by
  induction ps generalizing h with
  | nil => simp [headerFold, pure, Except.pure]
  | cons p ps ih =>
    simp only [List.map_cons, headerFold,
      headerLine_property h p (hp p (List.mem_cons_self _ _)), bind, Except.bind]
    rw [ih _ (fun x hx => hp x (List.mem_cons_of_mem _ hx))]
    by_cases hv : h.numVertices > 0
    · simp [hv]
    · simp [hv]

theorem headerFold_declarations (t : HeaderText) (wf : t.WellFormed) :
    headerFold ⟨0, 0, []⟩ t.declarations = .ok ⟨t.numVertices, t.numFaces, t.recorded⟩ := by
  simp only [HeaderText.declarations, headerFold_append, headerFold,
    headerFold_neutral _ _ wf.pre_neutral, Except.bind, bind,
    headerLine_vertex _ _ wf.vertex_numeral.1 wf.vertex_numeral.2 wf.vertex_range,
    headerFold_properties _ _ wf.property_names, headerFold_neutral _ _ wf.mid_neutral,
    headerLine_face _ _ wf.face_numeral.1 wf.face_numeral.2 wf.face_range,
    headerFold_neutral _ _ wf.post_neutral]
  simp [HeaderText.recorded, HeaderText.numVertices, HeaderText.numFaces]

theorem headerLoop_lines (hs : List Str) (body line : Str) (h : Header) (fuel : Nat)
    (hfuel : hs.length < fuel) (hnl : ∀ l ∈ hs, '\n' ∉ l) (hend : ∀ l ∈ hs, l ≠ endHeaderStr) :
    headerLoop fuel ⟨renderLines (hs ++ [endHeaderStr]) ++ body, false, false⟩ line h
      = (headerFold h hs).map (fun h => (⟨body, false, false⟩, endHeaderStr, h)) := by
  induction hs generalizing fuel line h with
  | nil =>
    obtain ⟨f, rfl⟩ : ∃ f, fuel = f + 1 := ⟨fuel - 1, by simp at hfuel; omega⟩
    have hn : '\n' ∉ endHeaderStr := by decide
    simp [headerLoop, renderLines, getline_line endHeaderStr _ line hn, headerLine_end,
      headerFold, bind, Except.bind, pure, Except.pure, Except.map]
  | cons l ls ih =>
    obtain ⟨f, rfl⟩ : ∃ f, fuel = f + 1 := ⟨fuel - 1, by simp at hfuel; omega⟩
    have hl : '\n' ∉ l := hnl l (List.mem_cons_self _ _)
    have hle : l ≠ endHeaderStr := hend l (List.mem_cons_self _ _)
    simp only [headerLoop, renderLines, List.cons_append, List.append_assoc,
      getline_line l _ line hl, headerFold, bind, Except.bind]
    cases headerLine h l with
    | error e => simp [Except.map]
    | ok h1 =>
      simp only [hle, if_false]
      have := ih l h1 f (by simp at hfuel; omega)
        (fun x hx => hnl x (List.mem_cons_of_mem _ hx))
        (fun x hx => hend x (List.mem_cons_of_mem _ hx))
      simpa [List.append_assoc] using this

theorem length_le_renderLines (ls : List Str) : ls.length ≤ (renderLines ls).length := by
  induction ls with
  | nil => simp [renderLines]
  | cons l ls ih => simp [renderLines]; omega

theorem allDigits_no_newline {ds : Str} (h : AllDigits ds) : '\n' ∉ ds :=
  allDigits_not_mem h '\n' (by decide)

theorem noSpace_no_newline {t : Str} (h : NoSpace t) : '\n' ∉ t :=
  noSpace_not_mem h '\n' (by decide)

theorem declarations_no_newline (t : HeaderText) (wf : t.WellFormed) :
    ∀ l ∈ t.declarations, '\n' ∉ l := by
  intro l hl
  simp only [HeaderText.declarations, List.mem_append, List.mem_cons, List.mem_map] at hl
  rcases hl with h | rfl | ⟨p, hp, rfl⟩ | h | rfl | h
  · exact (wf.pre_neutral l h).no_newline
  · have h1 : '\n' ∉ vertexElementStr := by decide
    simp [List.mem_append, h1, allDigits_no_newline wf.vertex_numeral.1]
  · have h1 : '\n' ∉ propertyFloatStr := by decide
    simp [List.mem_append, h1, noSpace_no_newline (wf.property_names p hp)]
  · exact (wf.mid_neutral l h).no_newline
  · have h1 : '\n' ∉ faceElementStr := by decide
    simp [List.mem_append, h1, allDigits_no_newline wf.face_numeral.1]
  · exact (wf.post_neutral l h).no_newline

theorem declarations_not_end (t : HeaderText) (wf : t.WellFormed) :
    ∀ l ∈ t.declarations, l ≠ endHeaderStr := by
  intro l hl
  simp only [HeaderText.declarations, List.mem_append, List.mem_cons, List.mem_map] at hl
  rcases hl with h | rfl | ⟨p, hp, rfl⟩ | h | rfl | h
  · exact (wf.pre_neutral l h).not_end
  · simp [vertexElementStr_eq, endHeaderStr_eq]
  · simp [propertyFloatStr_eq, endHeaderStr_eq]
  · exact (wf.mid_neutral l h).not_end
  · simp [faceElementStr_eq, endHeaderStr_eq]
  · exact (wf.post_neutral l h).not_end

/-- The header loop on a well-formed header: it stops behind the sentinel line with the
declared counts and the recorded property names. -/
theorem headerLoop_header (t : HeaderText) (wf : t.WellFormed) (body : Str) :
    headerLoop ((t.render ++ body).length + 1) (IStream.ofString (t.render ++ body)) []
        ⟨0, 0, []⟩
      = .ok (⟨body, false, false⟩, endHeaderStr,
          ⟨(t.numVertices : Int), (t.numFaces : Int), t.recorded⟩) := by
  have hlen : t.declarations.length < (t.render ++ body).length + 1 := by
    have := length_le_renderLines (t.declarations ++ [endHeaderStr])
    simp only [HeaderText.render, List.length_append] at this ⊢
    simp at this
    omega
  simp only [IStream.ofString, HeaderText.render] at hlen ⊢
  rw [headerLoop_lines _ body [] _ _ hlen (declarations_no_newline t wf)
      (declarations_not_end t wf), headerFold_declarations t wf]
  rfl

/-! ## The whole reader on a file with a well-formed header -/

theorem getlines_take_drop (n m : Nat) (s : IStream) (line : Str) :
    (getlines n s line).1 = (getlines (n + m) s line).1.take n ∧
      (getlines m (getlines n s line).2.1 (getlines n s line).2.2).1
        = (getlines (n + m) s line).1.drop n := by
  rw [getlines_add]
  have h := getlines_length n s line
  constructor
  · simp [List.take_append_of_le_length, h]
  · simp [List.drop_append_of_le_length, h]

/-- After a well-formed header `readPLYFile` builds its vertices from the next
`numVertices` lines read and its triangles from the `numFaces` lines read after them, and
fails only when a vertex line does. -/
theorem readPLYFile_body {F : Type} (stof : Str → Except Exn F) (zero : F) (t : HeaderText)
    (wf : t.WellFormed) (body : Str) (vertices : List (VertexData F))
    (triangles : List TriData) :
    readPLYFile stof zero (some (t.render ++ body)) vertices triangles
      = (mapRows (vertexRow stof zero t.recorded)
          ((getlines (t.numVertices + t.numFaces) ⟨body, false, false⟩ endHeaderStr).1.take
            t.numVertices)).map
          (fun vs => ⟨vertices ++ vs,
            triangles ++ ((getlines (t.numVertices + t.numFaces) ⟨body, false, false⟩
              endHeaderStr).1.drop t.numVertices).map faceRow, []⟩) := by
  obtain ⟨h1, h2⟩ := getlines_take_drop t.numVertices t.numFaces ⟨body, false, false⟩
    endHeaderStr
  rw [← h1, ← h2]
  simp only [readPLYFile, headerLoop_header t wf body, bind, Except.bind, Int.toNat_ofNat,
    vertexLoop_eq, faceLoop_eq]
  cases mapRows (vertexRow stof zero t.recorded)
    (getlines t.numVertices ⟨body, false, false⟩ endHeaderStr).1 with
  | error e => rfl
  | ok vs => rfl

/-! ## Tokens of a row -/

theorem tokensAux_token (t rest cur : Str) (ht : NoSpace t) :
    tokensAux (t ++ rest) cur = tokensAux rest (cur ++ t) := by
  induction t generalizing cur with
  | nil => simp
  | cons c cs ih =>
    have hc : isspace c = false := ht c (List.mem_cons_self _ _)
    rw [List.cons_append, tokensAux]
    simp only [hc, Bool.false_eq_true, if_false]
    rw [ih _ (fun x hx => ht x (List.mem_cons_of_mem _ hx))]
    simp

theorem tokens_joinTokens (ts : List Str) (h : ∀ t ∈ ts, Token t) :
    tokens (joinTokens ts) = ts := by
  induction ts with
  | nil => rfl
  | cons t ts ih =>
    have ht := h t (List.mem_cons_self _ _)
    have hts : ∀ x ∈ ts, Token x := fun x hx => h x (List.mem_cons_of_mem _ hx)
    cases ts with
    | nil =>
      have := tokensAux_token t [] [] ht.1
      simp only [List.append_nil, List.nil_append] at this
      simp [tokens, joinTokens, this, tokensAux, ht.2]
    | cons u us =>
      have h1 := tokensAux_token t (' ' :: joinTokens (u :: us)) [] ht.1
      have hsp : isspace ' ' = true := by decide
      simp only [List.nil_append] at h1
      simp only [tokens, joinTokens, h1, tokensAux, hsp, if_true, ht.2, if_false]
      rw [show tokensAux (joinTokens (u :: us)) [] = tokens (joinTokens (u :: us)) from rfl,
        ih hts]

theorem joinTokens_no_newline (ts : List Str) (h : ∀ t ∈ ts, Token t) :
    '\n' ∉ joinTokens ts := by
  induction ts with
  | nil => simp [joinTokens]
  | cons t ts ih =>
    have ht := noSpace_no_newline (h t (List.mem_cons_self _ _)).1
    have hts := ih (fun x hx => h x (List.mem_cons_of_mem _ hx))
    cases ts with
    | nil => simpa [joinTokens] using ht
    | cons u us =>
      simp only [joinTokens, List.mem_append, List.mem_cons, not_or]
      exact ⟨ht, by decide, hts⟩

/-! ## Face rows -/

theorem sentry_digits (ds rest : Str) (hds : Numeral ds) :
    sentry ⟨ds ++ rest, false, false⟩ = (⟨ds ++ rest, false, false⟩, true) := by
  have h1 := dropWhile_isspace_digits ds rest hds.1 hds.2
  have h2 : ds ++ rest ≠ [] := by simp [hds.2]
  simp [sentry, IStream.good, h1, h2]

theorem sentry_blank_digits (ds rest : Str) (hds : Numeral ds) :
    sentry ⟨' ' :: (ds ++ rest), false, false⟩ = (⟨ds ++ rest, false, false⟩, true) := by
  have h1 := dropWhile_isspace_digits ds rest hds.1 hds.2
  have h2 : ds ++ rest ≠ [] := by simp [hds.2]
  have hsp : isspace ' ' = true := by decide
  simp [sentry, IStream.good, List.dropWhile, hsp, h1, h2]

theorem extractInt_digits (ds rest : Str) (old : Option Int) (hds : Numeral ds)
    (hr : StopsDigits rest) (hmax : (decimalValue ds : Int) ≤ INT_MAX) :
    extractInt ⟨ds ++ rest, false, false⟩ old
      = (⟨rest, rest.isEmpty, false⟩, some (decimalValue ds : Int)) := by
  have h5 : ¬ ((decimalValue ds : Int) < INT_MIN) := by
    have : INT_MIN = -2147483648 := rfl
    omega
  have h6 : ¬ (INT_MAX < (decimalValue ds : Int)) := by omega
  simp only [extractInt, sentry_digits ds rest hds, dropSign_digits ds rest hds.1 hds.2,
    takeWhile_digits ds rest hds.1 hr, dropWhile_digits ds rest hds.1 hr,
    signNegative_digits ds rest hds.1 hds.2, signedValue, hds.2, if_false,
    Bool.false_eq_true, h5, h6]

theorem extractUInt_blank_digits (ds rest : Str) (old : Option Nat) (hds : Numeral ds)
    (hr : StopsDigits rest) (hmax : decimalValue ds ≤ UINT_MAX) :
    extractUInt ⟨' ' :: (ds ++ rest), false, false⟩ old
      = (⟨rest, rest.isEmpty, false⟩, some (decimalValue ds)) := by
  have h5 : ¬ (UINT_MAX < decimalValue ds) := by omega
  simp only [extractUInt, sentry_blank_digits ds rest hds, dropSign_digits ds rest hds.1 hds.2,
    takeWhile_digits ds rest hds.1 hr, dropWhile_digits ds rest hds.1 hr,
    signNegative_digits ds rest hds.1 hds.2, hds.2, if_false, Bool.false_eq_true, h5]

theorem faceRow_render (n : Nat) (f : FaceText) (wf : f.WellFormed n)
    (hn : (n : Int) ≤ INT_MAX) : faceRow f.render = f.triangle := by
  have hU : ∀ k, k < n → k ≤ UINT_MAX := by
    intro k hk
    have h1 : INT_MAX = 2147483647 := rfl
    have h2 : UINT_MAX = 4294967295 := rfl
    omega
  have e0 := extractInt_digits f.count (' ' :: (f.i0 ++ ' ' :: (f.i1 ++ ' ' :: f.i2))) none
    wf.count_numeral (stopsDigits_space _) wf.count_range
  have e1 := extractUInt_blank_digits f.i0 (' ' :: (f.i1 ++ ' ' :: f.i2)) none wf.i0_numeral
    (stopsDigits_space _) (hU _ wf.i0_range)
  have e2 := extractUInt_blank_digits f.i1 (' ' :: f.i2) none wf.i1_numeral
    (stopsDigits_space _) (hU _ wf.i1_range)
  have e3 := extractUInt_blank_digits f.i2 [] none wf.i2_numeral stopsDigits_nil
    (hU _ wf.i2_range)
  simp only [List.append_nil] at e3
  simp only [List.isEmpty_cons] at e0 e1 e2
  simp only [faceRow, FaceText.render, IStream.ofString, e0, e1, e2, e3, FaceText.triangle]

/-! ## Vertex rows -/

theorem assignProperty_unrecognized {F : Type} (stof : Str → Except Exn F) (prop token : Str)
    (w : VertexData F) (h : prop ∉ recognizedNames) :
    assignProperty stof prop token w = .ok w := by
  simp only [recognizedNames, List.mem_cons, List.mem_singleton, not_or, List.not_mem_nil,
    not_false_eq_true, and_true] at h
  obtain ⟨h1, h2, h3, h4, h5, h6, h7, h8, h9, h10, h11⟩ := h
  simp only [assignProperty, h1, h2, h3, h4, h5, h6, h7, h8, h9, h10, h11, if_false]

theorem Member.name_mem (m : Member) : m.name ∈ recognizedNames := by
  cases m <;> decide

theorem assignProperty_ok {F : Type} (stof : Str → Except Exn F) (prop token : Str)
    (w : VertexData F) (f : F) (hf : stof token = .ok f) :
    ∃ w1, assignProperty stof prop token w = .ok w1 ∧
      ∀ m : Member, m.get w1 = if prop = m.name then f else m.get w := by
  by_cases h : prop ∈ recognizedNames
  · simp only [recognizedNames, List.mem_cons, List.mem_singleton, List.not_mem_nil,
      or_false] at h
    rcases h with h | h | h | h | h | h | h | h | h | h | h <;> subst h <;>
      refine ⟨_, by simp [assignProperty, hf, Except.map]; rfl, ?_⟩ <;>
      intro m <;> cases m <;> simp [Member.get, Member.name]
  · refine ⟨w, assignProperty_unrecognized stof prop token w h, ?_⟩
    intro m
    have : prop ≠ m.name := fun e => h (e ▸ m.name_mem)
    simp [this]

theorem assignProperty_error {F : Type} (stof : Str → Except Exn F) (prop token : Str)
    (w : VertexData F) (e : Exn) (h : prop ∈ recognizedNames) (he : stof token = .error e) :
    assignProperty stof prop token w = .error e := by
  simp only [recognizedNames, List.mem_cons, List.mem_singleton, List.not_mem_nil,
    or_false] at h
  rcases h with h | h | h | h | h | h | h | h | h | h | h <;> subst h <;>
    simp [assignProperty, he, Except.map]

theorem lastAssigned_cons {F : Type} (init : F) (name p : Str) (f : F)
    (pairs : List (Str × F)) :
    lastAssigned init name ((p, f) :: pairs)
      = lastAssigned (if p = name then f else init) name pairs := by
  unfold lastAssigned
  by_cases hp : p = name
  · simp only [hp, List.filter_cons, decide_True, if_true, List.getLast?_cons]
    cases (pairs.filter (fun q => decide (q.1 = name))).getLast? with
    | none => rfl
    | some q => rfl
  · simp [hp, List.filter_cons]

theorem vertexTokenLoop_spec {F : Type} (stof : Str → Except Exn F) (props : List Str)
    (toks : List Str) (vals : List F) (hv : Converts stof toks vals) (k : Nat)
    (w : VertexData F) :
    ∃ w1, vertexTokenLoop stof props toks k w = .ok w1 ∧
      ∀ m : Member, m.get w1 = lastAssigned (m.get w) m.name ((props.drop k).zip vals) := by
  induction hv generalizing k w with
  | nil => exact ⟨w, rfl, fun m => by simp [lastAssigned]⟩
  | @cons t f toks vals htf _ ih =>
    by_cases hk : k < props.length
    · obtain ⟨w1, hw1, hget⟩ := assignProperty_ok stof (props.get ⟨k, hk⟩) t w f htf
      obtain ⟨w2, hw2, hget2⟩ := ih (k + 1) w1
      refine ⟨w2, ?_, ?_⟩
      · simp only [vertexTokenLoop, hk, dite_true, hw1, bind, Except.bind, hw2]
      · intro m
        rw [hget2 m, hget m, List.drop_eq_getElem_cons hk, List.zip_cons_cons,
          lastAssigned_cons]
        rfl
    · refine ⟨w, by simp only [vertexTokenLoop, hk, dite_false]; rfl, fun m => ?_⟩
      rw [List.drop_of_length_le (by omega)]
      simp [lastAssigned]

theorem Member.get_default {F : Type} (zero : F) (m : Member) :
    m.get (VertexData.default zero) = zero := by
  cases m <;> rfl

/-- The vertex of a row whose tokens all convert: every member is as the specification
says. -/
theorem vertexRow_spec {F : Type} (stof : Str → Except Exn F) (zero : F) (props : List Str)
    (toks : List Str) (vals : List F) (ht : ∀ t ∈ toks, Token t)
    (hv : Converts stof toks vals) :
    ∃ w, vertexRow stof zero props (joinTokens toks) = .ok w ∧
      FieldsAsSpecified zero props vals w := by
  obtain ⟨w, hw, hget⟩ := vertexTokenLoop_spec stof props toks vals hv 0
    (VertexData.default zero)
  refine ⟨w, by rw [vertexRow, tokens_joinTokens toks ht, hw], ?_⟩
  simp only [Member.get_default, List.drop_zero] at hget
  exact ⟨hget .px, hget .py, hget .pz, hget .nx, hget .ny, hget .nz, hget .red, hget .green,
    hget .blue, hget .u, hget .v⟩

/-! ## Well-formed mesh files -/

theorem mapRows_forall₂ {α β : Type} (f : Str → Except Exn α) (g : β → Str) (rows : List β)
    (h : ∀ r ∈ rows, ∃ a, f (g r) = .ok a) :
    ∃ as, mapRows f (rows.map g) = .ok as ∧ List.Forall₂ (fun r a => f (g r) = .ok a) rows as := by
  induction rows with
  | nil => exact ⟨[], rfl, List.Forall₂.nil⟩
  | cons r rs ih =>
    obtain ⟨a, ha⟩ := h r (List.mem_cons_self _ _)
    obtain ⟨as, has, hall⟩ := ih (fun x hx => h x (List.mem_cons_of_mem _ hx))
    refine ⟨a :: as, ?_, List.Forall₂.cons ha hall⟩
    simp only [List.map_cons, mapRows, ha, has, bind, Except.bind, pure, Except.pure]

theorem converts_of_numeric {F : Type} (stof : Str → Except Exn F) (toks : List Str)
    (h : ∀ t ∈ toks, ∃ f, stof t = .ok f) : ∃ vals, Converts stof toks vals := by
  induction toks with
  | nil => exact ⟨[], List.Forall₂.nil⟩
  | cons t ts ih =>
    obtain ⟨f, hf⟩ := h t (List.mem_cons_self _ _)
    obtain ⟨vals, hvals⟩ := ih (fun x hx => h x (List.mem_cons_of_mem _ hx))
    exact ⟨f :: vals, List.Forall₂.cons hf hvals⟩

theorem bodyLines_no_newline (m : MeshText) (wf : m.WellFormed) :
    ∀ r ∈ m.bodyLines, '\n' ∉ r := by
  intro r hr
  simp only [MeshText.bodyLines, List.mem_append, List.mem_map] at hr
  rcases hr with ⟨row, hrow, rfl⟩ | ⟨f, hf, rfl⟩
  · exact joinTokens_no_newline row (wf.vertex_tokens row hrow)
  · have w := wf.faces f hf
    have hb : ('\n' : Char) ≠ ' ' := by decide
    simp only [FaceText.render, List.mem_append, List.mem_cons, not_or]
    exact ⟨allDigits_no_newline w.count_numeral.1, hb, allDigits_no_newline w.i0_numeral.1, hb,
      allDigits_no_newline w.i1_numeral.1, hb, allDigits_no_newline w.i2_numeral.1⟩

/-- On a well-formed mesh file `readPLYFile` appends one vertex per vertex row, built from
that row, and one triangle per face row, the three indices of that row; it fails only when a
vertex row does. -/
theorem readPLYFile_meshText {F : Type} (stof : Str → Except Exn F) (zero : F) (m : MeshText)
    (wf : m.WellFormed) (vertices : List (VertexData F)) (triangles : List TriData) :
    readPLYFile stof zero (some m.render) vertices triangles
      = (mapRows (vertexRow stof zero m.header.recorded) (m.vertexRows.map joinTokens)).map
          (fun vs => ⟨vertices ++ vs, triangles ++ m.faceRows.map FaceText.triangle, []⟩) := by
  have hlen : m.header.numVertices + m.header.numFaces = m.bodyLines.length := by
    simp [MeshText.bodyLines, wf.vertex_count, wf.face_count]
  have hv : (m.vertexRows.map joinTokens).length = m.header.numVertices := by
    simp [wf.vertex_count]
  have hfaces : (m.faceRows.map FaceText.render).map faceRow
      = m.faceRows.map FaceText.triangle := by
    rw [List.map_map]
    apply List.map_congr_left
    intro f hf
    exact faceRow_render _ f (wf.faces f hf) wf.header.vertex_range
  have hread : (getlines m.bodyLines.length
      ⟨match m.ending with
        | some t => renderLines m.bodyLines ++ t
        | none => renderOpen m.bodyLines, false, false⟩ endHeaderStr).1 = m.bodyLines := by
    cases m.ending with
    | some t =>
      simp only [getlines_rows m.bodyLines t endHeaderStr (bodyLines_no_newline m wf)]
    | none => exact getlines_open m.bodyLines endHeaderStr (bodyLines_no_newline m wf)
  rw [MeshText.render, readPLYFile_body stof zero m.header wf.header, hlen, hread]
  simp only [MeshText.bodyLines]
  rw [List.take_left' hv, List.drop_left' hv, hfaces]

/-! ## Properties of the bitmap reader -/

theorem headerByte_take (bytes : List Byte) (i : Nat) (hi : i < 54) :
    headerByte (bytes.take 54) i = headerByte bytes i := by
  simp [headerByte, List.getD_eq_getElem?_getD, List.getElem?_take, hi]

theorem readLE32_take (bytes : List Byte) (off : Nat) (hoff : off + 3 < 54) :
    readLE32 (bytes.take 54) off = readLE32 bytes off := by
  simp only [readLE32]
  rw [headerByte_take _ _ (by omega), headerByte_take _ _ (by omega),
    headerByte_take _ _ (by omega), headerByte_take _ _ (by omega)]

theorem fread_header (bytes : List Byte) (hlen : 54 ≤ bytes.length) :
    fread 54 (fopen bytes) = (bytes.take 54, ⟨bytes, 54⟩) := by
  simp [fread, fopen, List.length_take, hlen]

/-- What `loadARGBBMP` does with a file that holds a whole header, in terms of the bytes of
the file. -/
theorem loadARGBBMP_eq (bytes : List Byte) (out : BmpOut) (hlen : 54 ≤ bytes.length) :
    loadARGBBMP (some bytes) out =
      if headerByte bytes 0 ≠ 'B'.toNat ∨ headerByte bytes 1 ≠ 'M'.toNat then (out, [.notBmp])
      else if readLE32 bytes 0x1E ≠ 3 then
        (⟨out.data, readLE32 bytes 0x12, readLE32 bytes 0x16⟩, [.not32bpp])
      else
        (⟨some ⟨deriveImageSize (readLE32 bytes 0x22) (readLE32 bytes 0x12) (readLE32 bytes 0x16),
            (bytes.drop (deriveDataOffset (readLE32 bytes 0x0A))).take
              (deriveImageSize (readLE32 bytes 0x22) (readLE32 bytes 0x12) (readLE32 bytes 0x16))⟩,
          readLE32 bytes 0x12, readLE32 bytes 0x16⟩, []) := by
  have h54 : (bytes.take 54).length = 54 := by simp [List.length_take, hlen]
  simp only [loadARGBBMP, fread_header bytes hlen, h54, ne_eq, not_true_eq_false, if_false]
  rw [headerByte_take _ _ (by omega), headerByte_take _ _ (by omega),
    readLE32_take _ _ (by omega), readLE32_take _ _ (by omega), readLE32_take _ _ (by omega),
    readLE32_take _ _ (by omega), readLE32_take _ _ (by omega)]
  by_cases h1 : headerByte bytes 0 ≠ 'B'.toNat ∨ headerByte bytes 1 ≠ 'M'.toNat
  · rw [if_pos h1, if_pos h1]
  · rw [if_neg h1, if_neg h1]
    by_cases h2 : readLE32 bytes 0x1E = 3
    · rw [if_neg (not_not.mpr h2), if_neg (not_not.mpr h2)]
      by_cases h3 : deriveDataOffset (readLE32 bytes 0x0A) = 54
      · simp [fread, h3]
      · simp [fread, fseek, h3]
    · rw [if_pos h2, if_pos h2]

/-- Claim C3, evaluated on the code: the test of line 149 reads the four-byte field at `0x1E`
and never the bits-per-pixel field at `0x1C`. A file declaring 32 bits per pixel with 0 at
`0x1E` is refused with the not-32bpp diagnostic and no buffer; a file declaring 24 bits per
pixel with 3 at `0x1E` gets a buffer. -/
theorem loadARGBBMP_tests_compression_field :
    (readLE16 bmpUncompressed32 0x1C = 32 ∧
      loadARGBBMP (some bmpUncompressed32) callerInit = (⟨none, 2, 2⟩, [.not32bpp])) ∧
    (readLE16 bmpBitfields24 0x1C = 24 ∧
      loadARGBBMP (some bmpBitfields24) callerInit
        = (⟨some ⟨12, List.replicate 12 255⟩, 2, 2⟩, [])) := by
  decide

/-- Claim C4 as stated fails: with width 65536 and height 65536 the byte count is 0, not
`65536 * 65536 * 4`, and with a file that ends five bytes after its header the buffer of 16
bytes receives 5 bytes, not 16. -/
theorem loadARGBBMP_count_wraps_and_read_is_short :
    (readLE16 bmpWide 0x1C = 32 ∧ readLE32 bmpWide 0x12 = 65536 ∧ readLE32 bmpWide 0x16 = 65536 ∧
      readLE32 bmpWide 0x22 = 0 ∧
      (loadARGBBMP (some bmpWide) callerInit).1.data = some ⟨0, []⟩ ∧
      65536 * 65536 * 4 ≠ 0) ∧
    (readLE16 bmpTruncated 0x1C = 32 ∧ readLE32 bmpTruncated 0x12 = 2 ∧
      readLE32 bmpTruncated 0x16 = 2 ∧ readLE32 bmpTruncated 0x22 = 0 ∧
      (loadARGBBMP (some bmpTruncated) callerInit).1.data = some ⟨16, List.replicate 5 9⟩) := by
  decide

/-- Claim C4, amended: for a file of at least 54 bytes with the `BM` magic that passes the
test of line 149, the buffer is allocated with the declared data size or, when that is 0,
with `width * height * 4` taken modulo `2 ^ 32`, and the read stores that many bytes when
the file holds them from the data offset on, otherwise the bytes the file holds there. -/
theorem loadARGBBMP_byte_count (bytes : List Byte) (out : BmpOut) (hlen : 54 ≤ bytes.length)
    (hB : headerByte bytes 0 = 'B'.toNat) (hM : headerByte bytes 1 = 'M'.toNat)
    (hfmt : readLE32 bytes 0x1E = 3) :
    ∃ buf, (loadARGBBMP (some bytes) out).1.data = some buf ∧
      buf.size = (if readLE32 bytes 0x22 = 0
        then (readLE32 bytes 0x12 * readLE32 bytes 0x16 * 4) % 2 ^ 32
        else readLE32 bytes 0x22) ∧
      buf.bytes.length = min buf.size (bytes.length - dataOffsetOf bytes) := by
  rw [loadARGBBMP_eq bytes out hlen]
  simp only [hB, hM, hfmt, ne_eq, not_true_eq_false, or_self, if_false]
  refine ⟨_, rfl, ?_, ?_⟩
  · simp [deriveImageSize]
  · simp [List.length_take, List.length_drop, dataOffsetOf]

/-- Witness of `loadARGBBMP_byte_count`: width 2, height 2, 32 bits per pixel and declared
data size 0 give a buffer of 16 bytes, all 16 of them read. -/
theorem loadARGBBMP_byte_count_witness :
    (54 ≤ bmpSmall.length ∧ readLE32 bmpSmall 0x12 = 2 ∧ readLE32 bmpSmall 0x16 = 2 ∧
      readLE16 bmpSmall 0x1C = 32 ∧ readLE32 bmpSmall 0x22 = 0) ∧
    ∃ buf, (loadARGBBMP (some bmpSmall) callerInit).1.data = some buf ∧
      buf.size = (if readLE32 bmpSmall 0x22 = 0
        then (readLE32 bmpSmall 0x12 * readLE32 bmpSmall 0x16 * 4) % 2 ^ 32
        else readLE32 bmpSmall 0x22) ∧
      buf.bytes.length = min buf.size (bmpSmall.length - dataOffsetOf bmpSmall) :=
  ⟨by decide, loadARGBBMP_byte_count bmpSmall callerInit (by decide) (by decide) (by decide)
    (by decide)⟩

/-- Claim C6: a file of at least 54 bytes whose first byte is not `B` or whose second byte
is not `M` makes `loadARGBBMP` print the not-a-BMP diagnostic and return with the three
output parameters as the caller left them, so the buffer the caller initialised to null
stays null. -/
theorem loadARGBBMP_bad_magic (bytes : List Byte) (out : BmpOut) (hlen : 54 ≤ bytes.length)
    (hmagic : headerByte bytes 0 ≠ 'B'.toNat ∨ headerByte bytes 1 ≠ 'M'.toNat) :
    loadARGBBMP (some bytes) out = (out, [.notBmp]) ∧
      (loadARGBBMP (some bytes) callerInit).1.data = none := by
  rw [loadARGBBMP_eq bytes out hlen, loadARGBBMP_eq bytes callerInit hlen, if_pos hmagic,
    if_pos hmagic]
  exact ⟨rfl, rfl⟩

/-- Witness of `loadARGBBMP_bad_magic`: fifty-four bytes that begin like a PNG file. -/
theorem loadARGBBMP_bad_magic_witness :
    (54 ≤ notABitmap.length ∧
      (headerByte notABitmap 0 ≠ 'B'.toNat ∨ headerByte notABitmap 1 ≠ 'M'.toNat)) ∧
    (loadARGBBMP (some notABitmap) callerInit = (callerInit, [.notBmp]) ∧
      (loadARGBBMP (some notABitmap) callerInit).1.data = none) :=
  ⟨by decide, loadARGBBMP_bad_magic notABitmap callerInit (by decide) (by decide)⟩

/-- Claim C10: for a file that passes the checks of `loadARGBBMP`, let `off` be the data
offset its header declares at `0x0A`, or 54 when that is 0, and `n` the data size it
declares at `0x22`, or `width * height * 4` modulo `2 ^ 32` when that is 0. When the file is
at least `off + n` bytes long, the buffer holds exactly the bytes `[off, off + n)` of the
file in file order: byte `i` of the buffer is byte `off + i` of the file. Reading on from
the end of the header gives what seeking to 54 first would give, so leaving out the seek
when the offset is 54 changes nothing. -/
theorem loadARGBBMP_buffer_is_file_slice (bytes : List Byte) (out : BmpOut) (off n : Nat)
    (hlen : 54 ≤ bytes.length) (hB : headerByte bytes 0 = 'B'.toNat)
    (hM : headerByte bytes 1 = 'M'.toNat) (hfmt : readLE32 bytes 0x1E = 3)
    (hoff : off = if readLE32 bytes 0x0A = 0 then 54 else readLE32 bytes 0x0A)
    (hn : n = if readLE32 bytes 0x22 = 0
      then (readLE32 bytes 0x12 * readLE32 bytes 0x16 * 4) % 2 ^ 32
      else readLE32 bytes 0x22)
    (hfit : off + n ≤ bytes.length) :
    (loadARGBBMP (some bytes) out).1.data = some ⟨n, (bytes.drop off).take n⟩ ∧
      ((bytes.drop off).take n).length = n ∧
      (∀ i, i < n → ((bytes.drop off).take n).get? i = bytes.get? (off + i)) ∧
      fread n (fseek 54 (fread 54 (fopen bytes)).2) = fread n (fread 54 (fopen bytes)).2 := by
  have hoff1 : deriveDataOffset (readLE32 bytes 0x0A) = off := by
    rw [hoff]; rfl
  have hn1 : deriveImageSize (readLE32 bytes 0x22) (readLE32 bytes 0x12)
      (readLE32 bytes 0x16) = n := by
    rw [hn]; rfl
  rw [loadARGBBMP_eq bytes out hlen]
  simp only [hB, hM, hfmt, ne_eq, not_true_eq_false, or_self, if_false, hoff1, hn1]
  refine ⟨trivial, ?_, ?_, ?_⟩
  · simp only [List.length_take, List.length_drop]
    omega
  · intro i hi
    simp [List.getElem?_take, hi]
  · rw [fread_header bytes hlen]
    rfl

/-- Witness of `loadARGBBMP_buffer_is_file_slice`, on the three paths of lines 157-161. The
file `bmpSmall` declares offset 0 and is read from byte 54 without a seek; `bmpOffset60`
declares offset 60 and is read from byte 60, the six bytes between header and pixel data
being passed over; `bmpOffset10` declares offset 10 and is read from byte 10, inside the
header. -/
theorem loadARGBBMP_buffer_is_file_slice_witness :
    ((readLE32 bmpSmall 0x0A = 0 ∧ readLE32 bmpSmall 0x22 = 0) ∧
      (loadARGBBMP (some bmpSmall) callerInit).1.data
        = some ⟨16, [1, 2, 3, 4, 5, 6, 7, 8, 9, 10, 11, 12, 13, 14, 15, 16]⟩) ∧
    ((readLE32 bmpOffset60 0x0A = 60 ∧ readLE32 bmpOffset60 0x22 = 0) ∧
      (loadARGBBMP (some bmpOffset60) callerInit).1.data
        = some ⟨8, [1, 2, 3, 4, 5, 6, 7, 8]⟩) ∧
    ((readLE32 bmpOffset10 0x0A = 10 ∧ readLE32 bmpOffset10 0x22 = 4) ∧
      (loadARGBBMP (some bmpOffset10) callerInit).1.data = some ⟨4, [10, 0, 0, 0]⟩) :=
  ⟨⟨by decide,
      (loadARGBBMP_buffer_is_file_slice bmpSmall callerInit 54 16 (by decide) (by decide)
        (by decide) (by decide) (by decide) (by decide) (by decide)).1.trans (by decide)⟩,
    ⟨by decide,
      (loadARGBBMP_buffer_is_file_slice bmpOffset60 callerInit 60 8 (by decide) (by decide)
        (by decide) (by decide) (by decide) (by decide) (by decide)).1.trans (by decide)⟩,
    ⟨by decide,
      (loadARGBBMP_buffer_is_file_slice bmpOffset10 callerInit 10 4 (by decide) (by decide)
        (by decide) (by decide) (by decide) (by decide) (by decide)).1.trans (by decide)⟩⟩

/-! ## Properties of the mesh reader -/

/-- Claim C5: when the file cannot be opened `readPLYFile` writes its diagnostic and returns
without an exception, leaving both vectors as they were passed in; called with empty
vectors, as `TexturedMesh` does, it yields no vertex and no triangle. -/
theorem readPLYFile_unopenable {F : Type} (stof : Str → Except Exn F) (zero : F)
    (vertices : List (VertexData F)) (triangles : List TriData) :
    readPLYFile stof zero none vertices triangles = .ok ⟨vertices, triangles, [.couldNotOpen]⟩ ∧
      readPLYFile stof zero none [] [] = .ok ⟨[], [], [.couldNotOpen]⟩ :=
  ⟨rfl, rfl⟩

/-- Claim C1 as stated fails: the file below has a well-formed header, as many rows as it
declares and every index below the vertex count, but the count token of its face row is
beyond the range of `int`; the extraction of the count sets `failbit`, the three indices
are then not read, and the triangle holds indeterminate values instead of the indices
`0 1 2` of its row. -/
theorem readPLYFile_count_token_overflow :
    meshCountOverflow.render
        = ("ply\nformat ascii 1.0\nelement vertex 3\nproperty float x\nproperty float y\n"
          ++ "property float z\nproperty float u\nproperty float v\nelement face 1\n"
          ++ "property list uchar int vertex_indices\nend_header\n1.0 2.0 3.0 0.5 0.25\n"
          ++ "4.0 5.0 6.0 1.0 0.0\n7.5 -8.0 9.0\n2147483648 0 1 2\n").toList ∧
      (meshCountOverflow.header.WellFormed ∧
        meshCountOverflow.vertexRows.length = meshCountOverflow.header.numVertices ∧
        meshCountOverflow.faceRows.length = meshCountOverflow.header.numFaces ∧
        ∀ f ∈ meshCountOverflow.faceRows, Numeral f.count ∧
          Numeral f.i0 ∧ decimalValue f.i0 < meshCountOverflow.header.numVertices ∧
          Numeral f.i1 ∧ decimalValue f.i1 < meshCountOverflow.header.numVertices ∧
          Numeral f.i2 ∧ decimalValue f.i2 < meshCountOverflow.header.numVertices) ∧
      (readPLYFile stofDecimal Decimal.zero (some meshCountOverflow.render) [] []).map
          (fun out => (out.vertices.length, out.triangles))
        = .ok (3, [⟨none, none, none⟩]) ∧
      meshCountOverflow.faceRows.map FaceText.triangle = [⟨some 0, some 1, some 2⟩] := by
  refine ⟨by decide, by decide, by decide, by decide⟩

/-- On a well-formed mesh file with numeric vertex rows `readPLYFile` returns one vertex per
vertex row, built from that row, and the triangles of the face rows. -/
theorem readPLYFile_wellFormed_rows {F : Type} (stof : Str → Except Exn F) (zero : F)
    (m : MeshText) (wf : m.WellFormed) (hnum : m.Numeric stof) :
    ∃ vs, readPLYFile stof zero (some m.render) [] []
        = .ok ⟨vs, m.faceRows.map FaceText.triangle, []⟩ ∧
      List.Forall₂ (fun row w =>
        vertexRow stof zero m.header.recorded (joinTokens row) = .ok w) m.vertexRows vs := by
  have hrows : ∀ row ∈ m.vertexRows,
      ∃ w, vertexRow stof zero m.header.recorded (joinTokens row) = .ok w := by
    intro row hrow
    obtain ⟨vals, hvals⟩ := converts_of_numeric stof row (hnum row hrow)
    obtain ⟨w, hw, _⟩ := vertexRow_spec stof zero m.header.recorded row vals
      (wf.vertex_tokens row hrow) hvals
    exact ⟨w, hw⟩
  obtain ⟨vs, hvs, hall⟩ := mapRows_forall₂ (vertexRow stof zero m.header.recorded) joinTokens
    m.vertexRows hrows
  refine ⟨vs, ?_, hall⟩
  rw [readPLYFile_meshText stof zero m wf, hvs]
  rfl

/-- Claim C1, amended: for a well-formed mesh file whose header declares `N` vertices and
`M` faces, both at most 2147483647, whose vertex rows hold numeric tokens and whose face
rows hold a count token within `int` and three indices below `N`, `readPLYFile` called with
empty vectors returns exactly `N` vertices, one per vertex row in row order, and exactly `M`
triangles, triangle `j` being the three indices of face row `j` whatever count the row
states, each index below `N`. -/
theorem readPLYFile_wellFormed_mesh {F : Type} (stof : Str → Except Exn F) (zero : F)
    (m : MeshText) (wf : m.WellFormed) (hnum : m.Numeric stof) :
    ∃ vs, readPLYFile stof zero (some m.render) [] []
        = .ok ⟨vs, m.faceRows.map FaceText.triangle, []⟩ ∧
      vs.length = m.header.numVertices ∧
      (m.faceRows.map FaceText.triangle).length = m.header.numFaces ∧
      List.Forall₂ (fun row w =>
        vertexRow stof zero m.header.recorded (joinTokens row) = .ok w) m.vertexRows vs ∧
      ∀ tri ∈ m.faceRows.map FaceText.triangle, ∃ a b c, tri = ⟨some a, some b, some c⟩ ∧
        a < m.header.numVertices ∧ b < m.header.numVertices ∧ c < m.header.numVertices := by
  obtain ⟨vs, hout, hall⟩ := readPLYFile_wellFormed_rows stof zero m wf hnum
  refine ⟨vs, hout, ?_, ?_, hall, ?_⟩
  · rw [← hall.length_eq, wf.vertex_count]
  · rw [List.length_map, wf.face_count]
  · intro tri htri
    obtain ⟨f, hf, rfl⟩ := List.mem_map.mp htri
    have w := wf.faces f hf
    exact ⟨_, _, _, rfl, w.i0_range, w.i1_range, w.i2_range⟩

theorem sampleMesh_wellFormed : sampleMesh.WellFormed := by
  decide

theorem sampleMesh_numeric : sampleMesh.Numeric stofDecimal := by
  intro row hrow t ht
  have : ∀ row ∈ sampleMesh.vertexRows, ∀ t ∈ row, (stofDecimal t).toBool = true := by decide
  have h := this row hrow t ht
  cases hs : stofDecimal t with
  | ok f => exact ⟨f, rfl⟩
  | error e => rw [hs] at h; cases h

/-- Witness of `readPLYFile_wellFormed_mesh`: the sample file of three vertices and one
face. -/
theorem readPLYFile_wellFormed_mesh_witness :
    (sampleMesh.WellFormed ∧ sampleMesh.header.numVertices = 3 ∧
      sampleMesh.header.numFaces = 1) ∧
    ∃ vs, readPLYFile stofDecimal Decimal.zero (some sampleMesh.render) [] []
        = .ok ⟨vs, [⟨some 0, some 1, some 2⟩], []⟩ ∧
      vs.length = 3 :=
  ⟨⟨sampleMesh_wellFormed, by decide, by decide⟩,
    (readPLYFile_wellFormed_mesh stofDecimal Decimal.zero sampleMesh sampleMesh_wellFormed
      sampleMesh_numeric).imp fun _ h => ⟨h.1, h.2.1⟩⟩

theorem sampleMesh_first_row_converts :
    Converts stofDecimal (sampleMesh.vertexRows.get ⟨0, by decide⟩)
      [⟨false, 10, 1⟩, ⟨false, 20, 1⟩, ⟨false, 30, 1⟩, ⟨false, 5, 1⟩, ⟨false, 25, 2⟩] :=
  List.Forall₂.cons (by decide) (List.Forall₂.cons (by decide) (List.Forall₂.cons (by decide)
    (List.Forall₂.cons (by decide) (List.Forall₂.cons (by decide) List.Forall₂.nil))))

/-- Claim C2: in a well-formed mesh file with numeric vertex rows, the vertex `readPLYFile`
builds from vertex row `k` has every member as the specification says: with `P` the
declared property names in declaration order and `vals` the values of the tokens of the
row, value `i` is stored in the member that `P[i]` names for every `i` below both lengths
(`x`, `y`, `z` position; `nx`, `ny`, `nz` normal; `red`, `green`, `blue` colour; `u`, `v`
texture coordinate), a name that is none of these stores nothing but still takes up its
position, and every member that got no value is zero. -/
theorem readPLYFile_vertex_members {F : Type} (stof : Str → Except Exn F) (zero : F)
    (m : MeshText) (wf : m.WellFormed) (hnum : m.Numeric stof) (k : Nat)
    (hk : k < m.vertexRows.length) (vals : List F)
    (hvals : Converts stof (m.vertexRows.get ⟨k, hk⟩) vals) :
    ∃ out w, readPLYFile stof zero (some m.render) [] [] = .ok out ∧
      out.vertices.get? k = some w ∧ FieldsAsSpecified zero m.header.properties vals w := by
  obtain ⟨vs, hout, hall⟩ := readPLYFile_wellFormed_rows stof zero m wf hnum
  have hkv : k < vs.length := by rw [← hall.length_eq]; exact hk
  have hrec : m.header.recorded = m.header.properties := by
    have : 0 < m.header.numVertices := by rw [← wf.vertex_count]; omega
    simp [HeaderText.recorded, this]
  obtain ⟨w, hw, hspec⟩ := vertexRow_spec stof zero m.header.properties
    (m.vertexRows.get ⟨k, hk⟩) vals (wf.vertex_tokens _ (List.get_mem _ _ _)) hvals
  have hrow := hall.get hk hkv
  rw [hrec, hw] at hrow
  refine ⟨_, w, hout, ?_, hspec⟩
  simp only [List.get?_eq_get hkv]
  exact congrArg some (Except.ok.inj hrow).symm

/-- Witness of `readPLYFile_vertex_members`: with the properties `x y z u v` and the first
vertex row `1.0 2.0 3.0 0.5 0.25` the vertex has position (1.0, 2.0, 3.0), texture
coordinate (0.5, 0.25), and normal and colour zero; and with the properties
`x confidence y` the row `1.0 9.9 2.0` gives position (1.0, 2.0, 0), the second token being
passed over. -/
theorem readPLYFile_vertex_members_witness :
    ((readPLYFile stofDecimal Decimal.zero (some meshUnknownProperty) [] []).map
          (fun out => out.vertices)
        = .ok [⟨⟨⟨false, 10, 1⟩, ⟨false, 20, 1⟩, Decimal.zero⟩,
            ⟨Decimal.zero, Decimal.zero, Decimal.zero⟩,
            ⟨Decimal.zero, Decimal.zero, Decimal.zero⟩, ⟨Decimal.zero, Decimal.zero⟩⟩] ∧
      sampleMesh.header.properties
        = ["x".toList, "y".toList, "z".toList, "u".toList, "v".toList] ∧
      joinTokens (sampleMesh.vertexRows.get ⟨0, by decide⟩) = "1.0 2.0 3.0 0.5 0.25".toList ∧
      (readPLYFile stofDecimal Decimal.zero (some sampleMesh.render) [] []).map
          (fun out => out.vertices.get? 0)
        = .ok (some ⟨⟨⟨false, 10, 1⟩, ⟨false, 20, 1⟩, ⟨false, 30, 1⟩⟩,
            ⟨Decimal.zero, Decimal.zero, Decimal.zero⟩,
            ⟨Decimal.zero, Decimal.zero, Decimal.zero⟩, ⟨⟨false, 5, 1⟩, ⟨false, 25, 2⟩⟩⟩)) ∧
    ∃ out w, readPLYFile stofDecimal Decimal.zero (some sampleMesh.render) [] [] = .ok out ∧
      out.vertices.get? 0 = some w ∧
      FieldsAsSpecified Decimal.zero sampleMesh.header.properties
        [⟨false, 10, 1⟩, ⟨false, 20, 1⟩, ⟨false, 30, 1⟩, ⟨false, 5, 1⟩, ⟨false, 25, 2⟩] w :=
  ⟨by decide,
    readPLYFile_vertex_members stofDecimal Decimal.zero sampleMesh sampleMesh_wellFormed
      sampleMesh_numeric 0 (by decide) _ sampleMesh_first_row_converts⟩

/-- Claim C9 as stated fails: a `property float` line read while the recorded vertex count
is not positive appends nothing, and a marker that does not start its line is found but the
number is taken from a fixed column, here from the text ` vertex 5`, which throws. -/
theorem headerLine_guard_and_fixed_column :
    (find "property float x".toList propertyFloatStr = true ∧
      headerLine ⟨0, 0, []⟩ "property float x".toList = .ok ⟨0, 0, []⟩) ∧
    (find "comment element vertex 5".toList vertexElementStr = true ∧
      headerLine ⟨0, 0, []⟩ "comment element vertex 5".toList = .error .invalid_argument) ∧
    (readPLYFile stofDecimal Decimal.zero (some meshPropertyFirst) [] []).map
        (fun out => out.vertices)
      = .ok [VertexData.default Decimal.zero] := by
  decide

/-- Claim C9, amended: whatever the header scan has recorded so far, a header line that
starts with `element vertex ` followed by a decimal numeral `n` within `int` makes it record
the vertex count `n`, and a line that starts with `element face ` followed by such a numeral
makes it record the face count; a line that starts with `property float ` followed by a name
without white space appends exactly that name to the property list when the vertex count
recorded so far is positive, and leaves the list as it is otherwise. Nothing else of the
recorded state changes. -/
theorem headerLine_records (h : Header) (dv df name : Str) (hdv : Numeral dv)
    (hdvr : (decimalValue dv : Int) ≤ INT_MAX) (hdf : Numeral df)
    (hdfr : (decimalValue df : Int) ≤ INT_MAX) (hname : NoSpace name) :
    headerLine h (vertexElementStr ++ dv)
        = .ok ⟨(decimalValue dv : Int), h.numFaces, h.vertexProperties⟩ ∧
      headerLine h (faceElementStr ++ df)
        = .ok ⟨h.numVertices, (decimalValue df : Int), h.vertexProperties⟩ ∧
      (0 < h.numVertices → headerLine h (propertyFloatStr ++ name)
        = .ok ⟨h.numVertices, h.numFaces, h.vertexProperties ++ [name]⟩) ∧
      (¬ 0 < h.numVertices → headerLine h (propertyFloatStr ++ name) = .ok h) := by
  refine ⟨headerLine_vertex h dv hdv.1 hdv.2 hdvr, headerLine_face h df hdf.1 hdf.2 hdfr,
    ?_, ?_⟩
  · intro hpos
    rw [headerLine_property h name hname]
    simp [hpos]
  · intro hpos
    rw [headerLine_property h name hname]
    simp [hpos]

/-- Witness of `headerLine_records`. In the state in which the scan starts, with nothing
recorded, the line `element vertex 8` records 8 vertices and `element face 12` records 12
faces; with one vertex and the property `x` recorded, `element vertex 8` replaces the count,
and `property float nx` appends `nx`. -/
theorem headerLine_records_witness :
    (headerLine ⟨0, 0, []⟩ "element vertex 8".toList = .ok ⟨8, 0, []⟩ ∧
      headerLine ⟨0, 0, []⟩ "element face 12".toList = .ok ⟨0, 12, []⟩) ∧
    (headerLine ⟨1, 0, ["x".toList]⟩ "element vertex 8".toList = .ok ⟨8, 0, ["x".toList]⟩ ∧
      headerLine ⟨1, 0, ["x".toList]⟩ "element face 12".toList
        = .ok ⟨1, 12, ["x".toList]⟩ ∧
      headerLine ⟨1, 0, ["x".toList]⟩ "property float nx".toList
        = .ok ⟨1, 0, ["x".toList, "nx".toList]⟩) :=
  ⟨⟨(headerLine_records ⟨0, 0, []⟩ "8".toList "12".toList "nx".toList (by decide) (by decide)
        (by decide) (by decide) (by decide)).1,
      (headerLine_records ⟨0, 0, []⟩ "8".toList "12".toList "nx".toList (by decide) (by decide)
        (by decide) (by decide) (by decide)).2.1⟩,
    (headerLine_records ⟨1, 0, ["x".toList]⟩ "8".toList "12".toList "nx".toList (by decide)
        (by decide) (by decide) (by decide) (by decide)).1,
    (headerLine_records ⟨1, 0, ["x".toList]⟩ "8".toList "12".toList "nx".toList (by decide)
        (by decide) (by decide) (by decide) (by decide)).2.1,
    (headerLine_records ⟨1, 0, ["x".toList]⟩ "8".toList "12".toList "nx".toList (by decide)
        (by decide) (by decide) (by decide) (by decide)).2.2.1 (by decide)⟩

theorem mapRows_ok {α : Type} (f : Str → Except Exn α) (rows : List Str)
    (h : ∀ r ∈ rows, ∃ a, f r = .ok a) :
    ∃ as, mapRows f rows = .ok as ∧ as.length = rows.length := by
  obtain ⟨as, has, hall⟩ := mapRows_forall₂ f id rows h
  rw [List.map_id] at has
  exact ⟨as, has, hall.length_eq.symm⟩

theorem mapRows_error {α : Type} (f : Str → Except Exn α) (rows : List Str) (r : Str)
    (e : Exn) (hr : r ∈ rows) (he : f r = .error e) : ∃ e1, mapRows f rows = .error e1 := by
  induction rows with
  | nil => cases hr
  | cons a as ih =>
    cases ha : f a with
    | error e2 => exact ⟨e2, by simp [mapRows, ha, bind, Except.bind]⟩
    | ok v =>
      rcases List.mem_cons.mp hr with rfl | hmem
      · rw [he] at ha; cases ha
      · obtain ⟨e1, he1⟩ := ih hmem
        exact ⟨e1, by simp [mapRows, ha, he1, bind, Except.bind]⟩

theorem vertexRow_numeric {F : Type} (stof : Str → Except Exn F) (zero : F) (props : List Str)
    (line : Str) (h : ∀ tok ∈ tokens line, ∃ f, stof tok = .ok f) :
    ∃ w, vertexRow stof zero props line = .ok w := by
  obtain ⟨vals, hvals⟩ := converts_of_numeric stof (tokens line) h
  obtain ⟨w, hw, _⟩ := vertexTokenLoop_spec stof props (tokens line) vals hvals 0
    (VertexData.default zero)
  exact ⟨w, hw⟩

theorem vertexTokenLoop_error {F : Type} (stof : Str → Except Exn F) (props : List Str)
    (toks : List Str) (k i : Nat) (w : VertexData F) (p tok : Str) (e : Exn)
    (hp : props.get? (k + i) = some p) (hrec : p ∈ recognizedNames)
    (htok : toks.get? i = some tok) (hbad : stof tok = .error e) :
    ∃ e1, vertexTokenLoop stof props toks k w = .error e1 := by
  induction toks generalizing k i w with
  | nil => cases htok
  | cons t ts ih =>
    have hk : k < props.length := by
      have := List.get?_eq_some.mp hp
      obtain ⟨h, _⟩ := this
      omega
    cases i with
    | zero =>
      have ht : t = tok := by simpa using htok
      have hpk : props.get ⟨k, hk⟩ = p := by
        have := List.get?_eq_some.mp hp
        obtain ⟨_, h2⟩ := this
        simpa using h2
      refine ⟨e, ?_⟩
      simp only [vertexTokenLoop, hk, dite_true, hpk, ht,
        assignProperty_error stof p tok w e hrec hbad, bind, Except.bind]
    | succ j =>
      cases ha : assignProperty stof (props.get ⟨k, hk⟩) t w with
      | error e2 => exact ⟨e2, by simp only [vertexTokenLoop, hk, dite_true, ha, bind, Except.bind]⟩
      | ok w1 =>
        obtain ⟨e1, he1⟩ := ih (k + 1) j w1 (by rw [← hp]; congr 1; omega)
          (by simpa using htok)
        exact ⟨e1, by simp only [vertexTokenLoop, hk, dite_true, ha, bind, Except.bind, he1]⟩

/-- Claim C8 as stated fails: the token `abc` under a property name that is none of the
eleven is never converted, and the tokens `a b c` of a face row make the extractions fail
without an exception; the file is read to the end and a vertex and a triangle come back. -/
theorem readPLYFile_malformed_tokens_pass :
    readPLYFile stofDecimal Decimal.zero (some meshMalformedTokens) [] []
        = .ok ⟨[VertexData.default Decimal.zero], [⟨some 0, none, none⟩], []⟩ ∧
      stofDecimal "abc".toList = .error .invalid_argument := by
  decide

/-- Claim C8, amended: in a file with a well-formed header, a vertex row among the declared
ones that holds a token which `stof` rejects, at a position whose declared property name is
one of the eleven recognised names, makes `readPLYFile` end in an exception of the numeric
conversion instead of returning mesh data. -/
theorem readPLYFile_malformed_vertex_token {F : Type} (stof : Str → Except Exn F) (zero : F)
    (t : HeaderText) (wf : t.WellFormed) (before : List Str) (toks : List Str) (rest : Str)
    (i : Nat) (p tok : Str) (e : Exn) (vertices : List (VertexData F))
    (triangles : List TriData) (hbefore : ∀ r ∈ before, '\n' ∉ r)
    (hcount : before.length < t.numVertices) (htoks : ∀ x ∈ toks, Token x)
    (hp : t.properties.get? i = some p) (hrec : p ∈ recognizedNames)
    (htok : toks.get? i = some tok) (hbad : stof tok = .error e) :
    ∃ e1, readPLYFile stof zero
        (some (t.render ++ (renderLines (before ++ [joinTokens toks]) ++ rest)))
        vertices triangles = .error e1 := by
  have hrecd : t.recorded = t.properties := by
    have : 0 < t.numVertices := by omega
    simp [HeaderText.recorded, this]
  obtain ⟨e0, he0⟩ : ∃ e0, vertexRow stof zero t.recorded (joinTokens toks) = .error e0 := by
    rw [vertexRow, tokens_joinTokens toks htoks, hrecd]
    exact vertexTokenLoop_error stof t.properties toks 0 i _ p tok e (by simpa using hp) hrec
      htok hbad
  have hnl : ∀ r ∈ before ++ [joinTokens toks], '\n' ∉ r := by
    intro r hr
    rcases List.mem_append.mp hr with h | h
    · exact hbefore r h
    · rw [List.mem_singleton.mp h]; exact joinTokens_no_newline toks htoks
  obtain ⟨d, hd⟩ : ∃ d, t.numVertices + t.numFaces
      = (before ++ [joinTokens toks]).length + d :=
    ⟨t.numVertices + t.numFaces - (before.length + 1), by simp; omega⟩
  have hmem : joinTokens toks ∈
      (getlines (t.numVertices + t.numFaces)
        ⟨renderLines (before ++ [joinTokens toks]) ++ rest, false, false⟩
        endHeaderStr).1.take t.numVertices := by
    rw [hd, getlines_add, getlines_rows _ rest endHeaderStr hnl]
    simp only []
    rw [List.take_append_eq_append_take]
    have : (before ++ [joinTokens toks]).take t.numVertices = before ++ [joinTokens toks] :=
      List.take_of_length_le (by simp; omega)
    rw [this]
    simp
  obtain ⟨e1, he1⟩ := mapRows_error _ _ _ e0 hmem he0
  exact ⟨e1, by rw [readPLYFile_body stof zero t wf, he1]; rfl⟩

/-- Witness of `readPLYFile_malformed_vertex_token`: the second of two declared vertex rows
holds `1.0 oops` under the properties `x y`. -/
theorem readPLYFile_malformed_vertex_token_witness :
    (headerXY.WellFormed ∧ stofDecimal "oops".toList = .error .invalid_argument) ∧
    ∃ e1, readPLYFile stofDecimal Decimal.zero
        (some (headerXY.render ++ (renderLines (["0.5 0.5".toList]
          ++ [joinTokens ["1.0".toList, "oops".toList]]) ++ [])))
        [] [] = .error e1 :=
  ⟨by decide,
    readPLYFile_malformed_vertex_token stofDecimal Decimal.zero headerXY (by decide)
      ["0.5 0.5".toList] ["1.0".toList, "oops".toList] [] 1 "y".toList "oops".toList
      .invalid_argument [] [] (by decide) (by decide) (by decide) (by decide) (by decide)
      (by decide) (by decide)⟩

/-- Claim C7 as stated fails: a file that declares two vertices and one face but holds one
data row gives back two vertices and one triangle, the declared numbers, not the one row
that was read; and a file that ends right behind the sentinel, without a newline, makes the
vertex loop convert the text `end_header`, which throws. -/
theorem readPLYFile_short_body_not_truncated :
    (readPLYFile stofDecimal Decimal.zero (some meshShort) [] []
        = .ok ⟨[⟨⟨⟨false, 10, 1⟩, Decimal.zero, Decimal.zero⟩,
              ⟨Decimal.zero, Decimal.zero, Decimal.zero⟩,
              ⟨Decimal.zero, Decimal.zero, Decimal.zero⟩, ⟨Decimal.zero, Decimal.zero⟩⟩,
            VertexData.default Decimal.zero],
          [⟨none, none, none⟩], []⟩) ∧
      readPLYFile stofDecimal Decimal.zero (some meshHeaderOnly) [] []
        = .error .invalid_argument := by
  decide

/-- Claim C7, amended: for a file with a well-formed header declaring `N` vertices and `M`
faces whose body holds fewer than `N + M` rows, each ended by a newline and made of numeric
tokens, `readPLYFile` throws nothing and returns exactly `N` vertices and `M` triangles, the
declared numbers: the lines read are the rows of the file followed by empty lines, the first
`N` of them give the vertices and the next `M` the triangles, an empty line giving a vertex
with every member zero or a triangle with indeterminate indices. -/
theorem readPLYFile_short_body {F : Type} (stof : Str → Except Exn F) (zero : F)
    (t : HeaderText) (wf : t.WellFormed) (rows : List Str)
    (hshort : rows.length < t.numVertices + t.numFaces) (hnl : ∀ r ∈ rows, '\n' ∉ r)
    (hnum : ∀ r ∈ rows, ∀ tok ∈ tokens r, ∃ f, stof tok = .ok f) :
    ∃ vs ts, readPLYFile stof zero (some (t.render ++ renderLines rows)) [] []
        = .ok ⟨vs, ts, []⟩ ∧
      vs.length = t.numVertices ∧ ts.length = t.numFaces ∧
      mapRows (vertexRow stof zero t.recorded)
        ((rows ++ List.replicate (t.numVertices + t.numFaces - rows.length) []).take
          t.numVertices) = .ok vs ∧
      ts = ((rows ++ List.replicate (t.numVertices + t.numFaces - rows.length) []).drop
        t.numVertices).map faceRow ∧
      vertexRow stof zero t.recorded [] = .ok (VertexData.default zero) ∧
      faceRow [] = ⟨none, none, none⟩ := by
  obtain ⟨j, hj⟩ : ∃ j, t.numVertices + t.numFaces = rows.length + (j + 1) :=
    ⟨t.numVertices + t.numFaces - rows.length - 1, by omega⟩
  have hlines : (getlines (t.numVertices + t.numFaces) ⟨renderLines rows, false, false⟩
      endHeaderStr).1 = rows ++ List.replicate (t.numVertices + t.numFaces - rows.length) [] := by
    have h1 := getlines_rows rows [] endHeaderStr hnl
    rw [List.append_nil] at h1
    have hrep : t.numVertices + t.numFaces - rows.length = j + 1 := by omega
    rw [hrep, hj, getlines_add, h1]
    simp only []
    rw [getlines_exhausted]
  have hlen : (rows ++ List.replicate (t.numVertices + t.numFaces - rows.length)
      ([] : Str)).length = t.numVertices + t.numFaces := by
    simp; omega
  have hok : ∀ r ∈ (rows ++ List.replicate (t.numVertices + t.numFaces - rows.length)
      ([] : Str)).take t.numVertices, ∃ w, vertexRow stof zero t.recorded r = .ok w := by
    intro r hr
    apply vertexRow_numeric
    rcases List.mem_append.mp (List.mem_of_mem_take hr) with h | h
    · exact hnum r h
    · rw [(List.mem_replicate.mp h).2]
      intro tok htok
      cases htok
  obtain ⟨vs, hvs, hvlen⟩ := mapRows_ok _ _ hok
  refine ⟨vs, _, ?_, ?_, ?_, hvs, rfl, rfl, rfl⟩
  · rw [readPLYFile_body stof zero t wf, hlines, hvs]
    rfl
  · rw [hvlen, List.length_take, hlen]
    omega
  · rw [List.length_map, List.length_drop, hlen]
    omega

/-- Witness of `readPLYFile_short_body`: two vertices and no face declared, one row in the
file. -/
theorem readPLYFile_short_body_witness :
    (headerXY.WellFormed ∧ headerXY.numVertices = 2 ∧ headerXY.numFaces = 0) ∧
    ∃ vs ts, readPLYFile stofDecimal Decimal.zero
        (some (headerXY.render ++ renderLines ["0.5 1.5".toList])) [] [] = .ok ⟨vs, ts, []⟩ ∧
      vs.length = 2 ∧ ts.length = 0 :=
  ⟨by decide,
    (readPLYFile_short_body stofDecimal Decimal.zero headerXY (by decide) ["0.5 1.5".toList]
      (by decide) (by decide)
      (by
        intro r hr tok htok
        have h : ∀ r ∈ ["0.5 1.5".toList], ∀ tok ∈ tokens r,
            (stofDecimal tok).toBool = true := by decide
        have h1 := h r hr tok htok
        cases hs : stofDecimal tok with
        | ok f => exact ⟨f, rfl⟩
        | error e => rw [hs] at h1; cases h1)).imp
      fun _ h => h.imp fun _ h => ⟨h.1, h.2.1, h.2.2.1⟩⟩

end LinksHouse
